import Mathlib

/-!
Shallow embedding of the inventory-request scheduler of `src/netaskfor.cpp`.

The source keeps three mutually referring structures under one lock:
  * `mapNodeAskForState : std::map<NodeId, CNodeAskForState>` (peer registry),
  * `mapInvRequests : std::map<CInv, CInvState>` (request table),
  * `invRequestsWorkQueue : std::multimap<int64_t, CInv>` (work queue).

Modelling decisions, each justified against the source:
  * `NodeId` (a non-negative `int` handed out by the network layer) and `CInv`
    (an ordered, hashable value type) are both modelled as `Nat`.
  * Time (`int64_t` microseconds from `GetTimeMicros`, always non-negative)
    is modelled as `Nat`.
  * `CNode*` pointers are modelled as `Nat` handles with `0` playing the role
    of the null pointer.
  * `std::set` values (`setAskFor`, `nodes`, `notRequestedFrom`) are modelled
    as strictly sorted `List Nat`, because the source observes their iteration
    order (`notRequestedFrom.begin()` is the smallest element, and the
    `BOOST_FOREACH` loops iterate in ascending order).
  * The two `std::map`s are modelled as association lists: the source never
    iterates them, it only uses `find`, `insert` and `erase`, so any faithful
    finite-map model is observationally equivalent.
  * The `std::multimap` work queue is modelled as a list sorted by key, with
    `wqInsert` inserting at the upper bound of the equal-key range, exactly as
    `std::multimap::insert` does; in particular entries with equal keys stay
    in insertion order.
  * A `CInvState::workQueueIter` iterator is modelled as `Option Nat`: `none`
    is `invRequestsWorkQueue.end()`, and `some d` is an iterator to the entry
    `(d, inv)` of the queue.  Erasing through the iterator is modelled as
    erasing the first occurrence of the exact pair `(d, inv)`; the source
    maintains (and we prove) that each item has at most one queue entry, so
    this matches `std::multimap::erase(iterator)`.
  * `assert` failures and dereferences of unregistered state are modelled by
    returning `none` (`Option`).
  * Calls with observable effects outside the module are recorded as a ghost
    event trace (`Ev`): fetches pushed into a node's `mapAskFor` by
    `RequestItem`, `condInvRequests.notify_one()` wake-ups, announce calls,
    and retirement markers for outstanding fetch attempts (a popped work-queue
    entry is the retry deadline of the previous attempt for that item, a
    forget retires the item, and a disconnect of the in-flight peer retires
    its attempt).

`REQUEST_TIMEOUT` and `MAX_SETASKFOR_SZ` are declared in `netaskfor.h`, which
is not part of the sources; both are passed around as explicit parameters
(`T` and `maxSz`).  The spec fixes `REQUEST_TIMEOUT = 60000000` microseconds
for the concrete scenarios.
-/

/-- Node specific state for the netaskfor module (`CNodeAskForState`). -/
structure CNodeAskForState where
  /-- Set of inv items that are being requested from this node (`setAskFor`),
      as a strictly sorted list. -/
  setAskFor : List Nat
  /-- Network connection associated with this node (`CNode *node`);
      `0` models the null pointer. -/
  node : Nat
deriving DecidableEq, Repr

/-- State of one inventory item request (`CInvState`). -/
structure CInvState where
  /-- IDs of nodes that have this item (`nodes`), strictly sorted. -/
  nodes : List Nat
  /-- IDs of nodes that we have not tried requesting this inv from already
      (`notRequestedFrom`), strictly sorted. -/
  notRequestedFrom : List Nat
  /-- Current node that this is being requested from (`beingRequestedFrom`).
      The source value-initialises this field to `0` and resets it to `0` when
      the in-flight peer disconnects, so `0` doubles as the "none" marker. -/
  beingRequestedFrom : Nat
  /-- Iterator to the current work-queue entry for this item
      (`workQueueIter`); `none` models `invRequestsWorkQueue.end()`. -/
  workQueueIter : Option Nat
deriving DecidableEq, Repr

/-- The whole file-scope mutable state of `netaskfor.cpp`. -/
structure SchedState where
  mapNodeAskForState : List (Nat × CNodeAskForState)
  mapInvRequests : List (Nat × CInvState)
  invRequestsWorkQueue : List (Nat × Nat)
deriving DecidableEq, Repr

/-- Ghost event trace of the externally visible effects of the module. -/
inductive Ev where
  /-- `condInvRequests.notify_one()` was called. -/
  | notify : Ev
  /-- Peer `p` announced item `x` (a call to `NetAskFor::AskFor` that passed
      the registration assert). -/
  | ann (p x : Nat) : Ev
  /-- `RequestItem` issued `fetch(x)` from peer `p` through its bound handle
      `h` at time `t` (the insertion into `node->mapAskFor`). -/
  | fetch (p h x t : Nat) : Ev
  /-- Every outstanding fetch attempt for `x` was retired: the worker popped
      the work-queue entry of `x` (the retry deadline of the previous
      attempt), or the request row of `x` was forgotten. -/
  | retire (x : Nat) : Ev
  /-- Peer `p` disconnected while being the in-flight peer of `x`, retiring
      its outstanding fetch attempt. -/
  | retireP (p x : Nat) : Ev
deriving DecidableEq, Repr

/-- Lookup in an association-list map (`std::map::find`). -/
def mapFind {α : Type} (k : Nat) : List (Nat × α) → Option α
  | [] => none
  | (k1, v) :: l => if k = k1 then some v else mapFind k l

/-- Replace the value stored under an existing key (mutation through a
    `std::map` iterator or reference).  A no-op if the key is absent. -/
def mapSet {α : Type} (k : Nat) (v : α) : List (Nat × α) → List (Nat × α)
  | [] => []
  | (k1, v1) :: l => if k = k1 then (k, v) :: l else (k1, v1) :: mapSet k v l

/-- `std::map::insert`: inserts only when the key is absent. -/
def mapInsertIfAbsent {α : Type} (k : Nat) (v : α) (l : List (Nat × α)) :
    List (Nat × α) :=
  match mapFind k l with
  | some _ => l
  | none => (k, v) :: l

/-- `std::map::erase(key)`. -/
def mapErase {α : Type} (k : Nat) (l : List (Nat × α)) : List (Nat × α) :=
  l.filter (fun e => e.1 ≠ k)

/-- `std::set::insert` on a strictly sorted list. -/
def insSorted (a : Nat) : List Nat → List Nat
  | [] => [a]
  | b :: l => if a < b then a :: b :: l else if a = b then b :: l else b :: insSorted a l

/-- `std::multimap::insert` on the work queue: the new entry goes to the
    upper bound of its key's equal range, i.e. after every entry with a key
    `≤ d`. -/
def wqInsert (d x : Nat) : List (Nat × Nat) → List (Nat × Nat)
  | [] => [(d, x)]
  | (d1, x1) :: l => if d1 ≤ d then (d1, x1) :: wqInsert d x l else (d, x) :: (d1, x1) :: l

/-- `std::multimap::erase(iterator)` where the iterator designates the entry
    `(d, x)`; under the at-most-one-entry-per-item invariant this erases
    exactly the iterator's entry. -/
def wqEraseEntry (d x : Nat) (q : List (Nat × Nat)) : List (Nat × Nat) :=
  q.erase (d, x)

/-- The file-scope state at program start: all maps empty. -/
def initState : SchedState := ⟨[], [], []⟩

/-- Handler for when a new node appears (`InitializeNode`):
    `mapNodeAskForState.insert(make_pair(nodeid, CNodeAskForState()))`. -/
def InitializeNode (nodeid : Nat) (s : SchedState) : SchedState :=
  { s with mapNodeAskForState :=
      mapInsertIfAbsent nodeid ⟨[], 0⟩ s.mapNodeAskForState }

/-- One iteration of the `BOOST_FOREACH` loop of `FinalizeNode`: clean item
    `inv` of references to the disconnecting node `nodeid`. -/
def finStep (nodeid : Nat) (s : SchedState) (inv : Nat) : SchedState × List Ev :=
  match mapFind inv s.mapInvRequests with
  | none => (s, [])
  | some r =>
    let r1 : CInvState :=
      { r with nodes := r.nodes.erase nodeid,
               notRequestedFrom := r.notRequestedFrom.erase nodeid }
    if r.beingRequestedFrom = nodeid then
      let q1 := match r.workQueueIter with
        | some d => wqEraseEntry d inv s.invRequestsWorkQueue
        | none => s.invRequestsWorkQueue
      let r2 : CInvState := { r1 with beingRequestedFrom := 0, workQueueIter := some 0 }
      ({ s with mapInvRequests := mapSet inv r2 s.mapInvRequests,
                invRequestsWorkQueue := wqInsert 0 inv q1 },
       [Ev.retireP nodeid inv, Ev.notify])
    else
      ({ s with mapInvRequests := mapSet inv r1 s.mapInvRequests }, [])

/-- The `BOOST_FOREACH(const CInv &inv, state->setAskFor)` loop of
    `FinalizeNode`, in ascending iteration order of the `std::set`. -/
def finLoop (nodeid : Nat) : List Nat → SchedState → SchedState × List Ev
  | [], s => (s, [])
  | inv :: invs, s =>
    let p1 := finStep nodeid s inv
    let p2 := finLoop nodeid invs p1.1
    (p2.1, p1.2 ++ p2.2)

/-- Handler to clean up when a node goes away (`FinalizeNode`).  `none`
    models the `assert(state)` failure for an unregistered node. -/
def FinalizeNode (nodeid : Nat) (s : SchedState) : Option (SchedState × List Ev) :=
  match mapFind nodeid s.mapNodeAskForState with
  | none => none
  | some st =>
    let p := finLoop nodeid st.setAskFor s
    some ({ p.1 with mapNodeAskForState := mapErase nodeid p.1.mapNodeAskForState },
          p.2)

/-- The `BOOST_FOREACH(NodeId nodeid, i->second.nodes)` loop of `Forget`:
    remove the item from `setAskFor` of every candidate node.  `none` models
    the `assert(state)` failure. -/
def forgetLoop (inv : Nat) : List Nat → List (Nat × CNodeAskForState) →
    Option (List (Nat × CNodeAskForState))
  | [], m => some m
  | n :: ns, m =>
    match mapFind n m with
    | none => none
    | some st =>
      forgetLoop inv ns (mapSet n { st with setAskFor := st.setAskFor.erase inv } m)

/-- Forget a certain inventory item request (`Forget`).  `r` is the request
    row currently stored for `inv` (the callee reads it through the map
    iterator `i`). -/
def Forget (inv : Nat) (r : CInvState) (s : SchedState) :
    Option (SchedState × List Ev) :=
  match forgetLoop inv r.nodes s.mapNodeAskForState with
  | none => none
  | some m =>
    let q := match r.workQueueIter with
      | some d => wqEraseEntry d inv s.invRequestsWorkQueue
      | none => s.invRequestsWorkQueue
    some ({ s with mapNodeAskForState := m,
                   mapInvRequests := mapErase inv s.mapInvRequests,
                   invRequestsWorkQueue := q },
          [Ev.retire inv])

/-- `NetAskFor::Completed` (the `CNode*` parameter of the source is unused). -/
def Completed (inv : Nat) (s : SchedState) : Option (SchedState × List Ev) :=
  match mapFind inv s.mapInvRequests with
  | none => some (s, [])
  | some r => Forget inv r s

/-- `NetAskFor::AskFor`.  `maxSz` is the `MAX_SETASKFOR_SZ` bound declared in
    `netaskfor.h`; `handle` is the `CNode*` argument, `nodeid = node->GetId()`.
    `none` models the `assert(state)` failure for an unregistered node. -/
def AskFor (maxSz nodeid handle inv : Nat) (s : SchedState) :
    Option (SchedState × List Ev) :=
  match mapFind nodeid s.mapNodeAskForState with
  | none => none
  | some st0 =>
    let st : CNodeAskForState := { st0 with node := handle }
    let s0 : SchedState :=
      { s with mapNodeAskForState := mapSet nodeid st s.mapNodeAskForState }
    if st.setAskFor.length > maxSz then
      some (s0, [Ev.ann nodeid inv])
    else
      match mapFind inv s0.mapInvRequests with
      | none =>
        let r : CInvState :=
          { nodes := [nodeid], notRequestedFrom := [nodeid],
            beingRequestedFrom := 0, workQueueIter := some 0 }
        let st1 : CNodeAskForState := { st with setAskFor := insSorted inv st.setAskFor }
        some ({ s0 with
                  mapInvRequests := mapInsertIfAbsent inv r s0.mapInvRequests,
                  invRequestsWorkQueue := wqInsert 0 inv s0.invRequestsWorkQueue,
                  mapNodeAskForState := mapSet nodeid st1 s0.mapNodeAskForState },
              [Ev.notify, Ev.ann nodeid inv])
      | some r =>
        let r1 : CInvState :=
          { r with nodes := insSorted nodeid r.nodes,
                   notRequestedFrom :=
                     if nodeid ∈ r.nodes then r.notRequestedFrom
                     else insSorted nodeid r.notRequestedFrom }
        let st1 : CNodeAskForState := { st with setAskFor := insSorted inv st.setAskFor }
        some ({ s0 with
                  mapInvRequests := mapSet inv r1 s0.mapInvRequests,
                  mapNodeAskForState := mapSet nodeid st1 s0.mapNodeAskForState },
              [Ev.ann nodeid inv])

/-- One iteration of the work-queue drain loop in `ThreadHandleAskFor`:
    process `invRequestsWorkQueue.begin()` and erase it.  The caller has
    checked the queue non-empty and the head entry due.  `T` is
    `REQUEST_TIMEOUT`.  `none` models an `assert` failure inside
    `RequestItem` or `Forget`. -/
def processHead (T now : Nat) (s : SchedState) : Option (SchedState × List Ev) :=
  match s.invRequestsWorkQueue with
  | [] => none
  | (_, inv) :: rest =>
    match mapFind inv s.mapInvRequests with
    | none =>
      -- "request for %s is missing!": only erase the popped entry
      some ({ s with invRequestsWorkQueue := rest }, [Ev.retire inv])
    | some r =>
      let r1 : CInvState := { r with workQueueIter := none }
      match r1.notRequestedFrom with
      | [] =>
        -- no more nodes to request from: Forget, then erase the popped entry
        match Forget inv r1 { s with mapInvRequests := mapSet inv r1 s.mapInvRequests } with
        | none => none
        | some (s1, evs) =>
          some ({ s1 with invRequestsWorkQueue := s1.invRequestsWorkQueue.tail },
                Ev.retire inv :: evs)
      | p :: ps =>
        -- pop the smallest node id from notRequestedFrom and RequestItem it
        match mapFind p s.mapNodeAskForState with
        | none => none
        | some stp =>
          if stp.node = 0 then none
          else
            let r2 : CInvState :=
              { r1 with notRequestedFrom := ps, beingRequestedFrom := p,
                        workQueueIter := some (now + T) }
            -- line order of the source: the new entry is inserted first,
            -- then begin() is erased
            let q1 := wqInsert (now + T) inv s.invRequestsWorkQueue
            some ({ s with mapInvRequests := mapSet inv r2 s.mapInvRequests,
                           invRequestsWorkQueue := q1.tail },
                  [Ev.retire inv, Ev.fetch p stp.node inv now])

/-- The `while (!invRequestsWorkQueue.empty() && begin()->first <= now)` loop
    of `ThreadHandleAskFor`, fuelled (each iteration erases the due head and
    inserts at most one non-due entry, so `fuel = queue length` drains every
    due entry whenever `0 < T`). -/
def workerRun (T now : Nat) : Nat → SchedState → Option (SchedState × List Ev)
  | 0, s => some (s, [])
  | fuel + 1, s =>
    match s.invRequestsWorkQueue with
    | [] => some (s, [])
    | (d, _) :: _ =>
      if d ≤ now then
        match processHead T now s with
        | none => none
        | some (s1, e1) =>
          match workerRun T now fuel s1 with
          | none => none
          | some (s2, e2) => some (s2, e1 ++ e2)
      else some (s, [])

/-- One pass of the worker loop body under the lock, at clock value `now`. -/
def workerPass (T now : Nat) (s : SchedState) : Option (SchedState × List Ev) :=
  workerRun T now s.invRequestsWorkQueue.length s

/-- The external entry points of the module, as trace alphabet. -/
inductive Op where
  /-- `InitializeNode` via the node signals (connect). -/
  | initNode (n : Nat)
  /-- `FinalizeNode` via the node signals (disconnect). -/
  | finalizeNode (n : Nat)
  /-- `NetAskFor::AskFor node inv` with `node->GetId() = n` and handle `h`. -/
  | askFor (n h x : Nat)
  /-- `NetAskFor::Completed`. -/
  | completed (x : Nat)
  /-- One pass of `ThreadHandleAskFor` under the lock at clock `now`. -/
  | worker (now : Nat)
deriving DecidableEq, Repr

/-- Apply one operation. -/
def applyOp (T maxSz : Nat) (s : SchedState) : Op → Option (SchedState × List Ev)
  | Op.initNode n => some (InitializeNode n s, [])
  | Op.finalizeNode n => FinalizeNode n s
  | Op.askFor n h x => AskFor maxSz n h x s
  | Op.completed x => Completed x s
  | Op.worker now => workerPass T now s

/-- Run a sequence of operations from a given state, accumulating the ghost
    event trace. -/
def runOps (T maxSz : Nat) : List Op → SchedState → Option (SchedState × List Ev)
  | [], s => some (s, [])
  | op :: ops, s =>
    match applyOp T maxSz s op with
    | none => none
    | some (s1, e1) =>
      match runOps T maxSz ops s1 with
      | none => none
      | some (s2, e2) => some (s2, e1 ++ e2)

/-- Run a sequence of operations from the initial (empty) state. -/
def run (T maxSz : Nat) (ops : List Op) : Option (SchedState × List Ev) :=
  runOps T maxSz ops initState

/-! ### Derived observations on the ghost event trace -/

/-- Insert into a list of peers if not already present. -/
def insNew (p : Nat) (l : List Nat) : List Nat := if p ∈ l then l else p :: l

/-- Step function for `unanswered`: a trace event's effect on the set of
    peers with an unanswered fetch for item `x`. -/
def unStep (x : Nat) (acc : List Nat) : Ev → List Nat
  | Ev.fetch p _ y _ => if y = x then insNew p acc else acc
  | Ev.retire y => if y = x then [] else acc
  | Ev.retireP p y => if y = x then acc.erase p else acc
  | _ => acc

/-- The peers to which a `fetch(x)` has been issued and from which neither a
    completion has arrived nor the request has been retired. -/
def unanswered (tr : List Ev) (x : Nat) : List Nat := tr.foldl (unStep x) []

/-- Step function for `outstanding`. -/
def outStep (x : Nat) (acc : Option (Nat × Nat)) : Ev → Option (Nat × Nat)
  | Ev.fetch p _ y t => if y = x then some (p, t) else acc
  | Ev.retire y => if y = x then none else acc
  | Ev.retireP p y =>
    if y = x then
      match acc with
      | some q => if q.1 = p then none else some q
      | none => none
    else acc
  | _ => acc

/-- The currently outstanding fetch attempt for item `x`, as the pair
    (peer, issue time), if any. -/
def outstanding (tr : List Ev) (x : Nat) : Option (Nat × Nat) :=
  tr.foldl (outStep x) none

/-- Step function for `annPeers`. -/
def annStep (x : Nat) (acc : List Nat) : Ev → List Nat
  | Ev.ann p y => if y = x then insNew p acc else acc
  | _ => acc

/-- The distinct peers that have ever announced item `x` in the trace. -/
def annPeers (tr : List Ev) (x : Nat) : List Nat := tr.foldl (annStep x) []

/-- Step function for `fetchPeers`. -/
def fetchStep (x : Nat) (acc : List Nat) : Ev → List Nat
  | Ev.fetch p _ y _ => if y = x then insNew p acc else acc
  | _ => acc

/-- The distinct peers that have ever been asked for item `x` in the trace. -/
def fetchPeers (tr : List Ev) (x : Nat) : List Nat := tr.foldl (fetchStep x) []

/-- The event trace of a run outcome (empty when the run aborted). -/
def traceOf (o : Option (SchedState × List Ev)) : List Ev :=
  match o with
  | some p => p.2
  | none => []

/-! ### Toolkit lemmas about the container models -/

/-- State-only invariant of the module, maintained on every lock release
    (the conjunction of the source's implicit well-formedness facts). -/
structure SInv (s : SchedState) : Prop where
  /-- The work queue is sorted by due time (`std::multimap` key order). -/
  wq_sorted : s.invRequestsWorkQueue.Pairwise (fun a b => a.1 ≤ b.1)
  /-- Each inv item has at most one work-queue entry. -/
  wq_nodup : (s.invRequestsWorkQueue.map Prod.snd).Nodup
  /-- A row's `workQueueIter` designates an existing entry for that item. -/
  cursor_acc : ∀ x r, mapFind x s.mapInvRequests = some r →
      ∃ d, r.workQueueIter = some d ∧ (d, x) ∈ s.invRequestsWorkQueue
  /-- Every work-queue entry belongs to a row whose cursor designates it. -/
  entry_row : ∀ d x, (d, x) ∈ s.invRequestsWorkQueue →
      ∃ r, mapFind x s.mapInvRequests = some r ∧ r.workQueueIter = some d
  /-- Every candidate node of a row is registered and holds the item in its
      `setAskFor`. -/
  nodes_reg : ∀ x r, mapFind x s.mapInvRequests = some r → ∀ n, n ∈ r.nodes →
      ∃ st, mapFind n s.mapNodeAskForState = some st ∧ x ∈ st.setAskFor
  /-- Every item of a node's `setAskFor` has a row listing that node. -/
  ask_reg : ∀ n st, mapFind n s.mapNodeAskForState = some st →
      ∀ x, x ∈ st.setAskFor →
      ∃ r, mapFind x s.mapInvRequests = some r ∧ n ∈ r.nodes
  /-- `notRequestedFrom ⊆ nodes`. -/
  untried_sub : ∀ x r, mapFind x s.mapInvRequests = some r →
      ∀ n, n ∈ r.notRequestedFrom → n ∈ r.nodes
  /-- `nodes` is a strictly sorted set. -/
  nodes_sorted : ∀ x r, mapFind x s.mapInvRequests = some r →
      r.nodes.Pairwise (· < ·)
  /-- `notRequestedFrom` is a strictly sorted set. -/
  untried_sorted : ∀ x r, mapFind x s.mapInvRequests = some r →
      r.notRequestedFrom.Pairwise (· < ·)
  /-- `setAskFor` is a strictly sorted set. -/
  ask_sorted : ∀ n st, mapFind n s.mapNodeAskForState = some st →
      st.setAskFor.Pairwise (· < ·)

/-- Relation between the ghost trace's outstanding fetch attempt for `x` and
    the stored request row: an outstanding attempt issued at `t` is recorded
    by `beingRequestedFrom` and a queue cursor at `t + T`; with no
    outstanding attempt, an existing row's cursor is a due-0 entry. -/
def OutSpec (T : Nat) (s : SchedState) (tr : List Ev) (x : Nat) : Prop :=
  match outstanding tr x with
  | some pt => ∃ r, mapFind x s.mapInvRequests = some r ∧
      r.workQueueIter = some (pt.2 + T) ∧ r.beingRequestedFrom = pt.1 ∧
      pt.1 ∈ r.nodes ∧ pt.1 ∉ r.notRequestedFrom
  | none => ∀ r, mapFind x s.mapInvRequests = some r → r.workQueueIter = some 0

/-- Trace-level invariant, relating the accumulated ghost trace to the
    current state. -/
structure TInv (T : Nat) (s : SchedState) (tr : List Ev) : Prop where
  /-- `OutSpec` holds for every item. -/
  ghost : ∀ x, OutSpec T s tr x
  /-- Every peer ever asked for an item announced it before. -/
  fetch_ann : ∀ x p, p ∈ fetchPeers tr x → p ∈ annPeers tr x
  /-- Every untried candidate of a row announced the item before. -/
  untried_ann : ∀ x r, mapFind x s.mapInvRequests = some r →
      ∀ p, p ∈ r.notRequestedFrom → p ∈ annPeers tr x
  /-- At most one peer has an unanswered fetch for any item. -/
  unans : ∀ x, (unanswered tr x).length ≤ 1

/-- Events that affect neither outstanding fetches nor unanswered sets nor
    fetched-peer sets. -/
def annLike : Ev → Bool
  | Ev.notify => true
  | Ev.ann _ _ => true
  | _ => false

/-- Events that change neither `annPeers` nor `fetchPeers`. -/
def quiet : Ev → Bool
  | Ev.fetch _ _ _ _ => false
  | Ev.ann _ _ => false
  | _ => true

/-- Intermediate invariant while `FinalizeNode nodeid` walks the
    disconnecting peer's `setAskFor`: like `SInv`/`TInv`, but the
    items-to-rows direction is only guaranteed for other peers, and every row
    still listing `n` is among the `pending` items. -/
structure FinMid (T n : Nat) (pending : List Nat) (s : SchedState)
    (tr : List Ev) : Prop where
  wq_sorted : s.invRequestsWorkQueue.Pairwise (fun a b => a.1 ≤ b.1)
  wq_nodup : (s.invRequestsWorkQueue.map Prod.snd).Nodup
  cursor_acc : ∀ x r, mapFind x s.mapInvRequests = some r →
      ∃ d, r.workQueueIter = some d ∧ (d, x) ∈ s.invRequestsWorkQueue
  entry_row : ∀ d x, (d, x) ∈ s.invRequestsWorkQueue →
      ∃ r, mapFind x s.mapInvRequests = some r ∧ r.workQueueIter = some d
  nodes_reg : ∀ x r, mapFind x s.mapInvRequests = some r → ∀ m, m ∈ r.nodes →
      ∃ st, mapFind m s.mapNodeAskForState = some st ∧ x ∈ st.setAskFor
  ask_reg_ex : ∀ m st, mapFind m s.mapNodeAskForState = some st → m ≠ n →
      ∀ x, x ∈ st.setAskFor →
      ∃ r, mapFind x s.mapInvRequests = some r ∧ m ∈ r.nodes
  n_pending : ∀ x r, mapFind x s.mapInvRequests = some r → n ∈ r.nodes →
      x ∈ pending
  untried_sub : ∀ x r, mapFind x s.mapInvRequests = some r →
      ∀ m, m ∈ r.notRequestedFrom → m ∈ r.nodes
  nodes_sorted : ∀ x r, mapFind x s.mapInvRequests = some r →
      r.nodes.Pairwise (· < ·)
  untried_sorted : ∀ x r, mapFind x s.mapInvRequests = some r →
      r.notRequestedFrom.Pairwise (· < ·)
  ask_sorted : ∀ m st, mapFind m s.mapNodeAskForState = some st →
      st.setAskFor.Pairwise (· < ·)
  ghost : ∀ x, OutSpec T s tr x
  fetch_ann : ∀ x p, p ∈ fetchPeers tr x → p ∈ annPeers tr x
  untried_ann : ∀ x r, mapFind x s.mapInvRequests = some r →
      ∀ p, p ∈ r.notRequestedFrom → p ∈ annPeers tr x
  unans : ∀ x, (unanswered tr x).length ≤ 1

/-- The per-row transformation `FinalizeNode nodeid` applies to every item in
    the disconnecting peer's `setAskFor`. -/
def finTf (nodeid : Nat) (r : CInvState) : CInvState :=
  let r1 : CInvState :=
    { r with nodes := r.nodes.erase nodeid,
             notRequestedFrom := r.notRequestedFrom.erase nodeid }
  if r.beingRequestedFrom = nodeid then
    { r1 with beingRequestedFrom := 0, workQueueIter := some 0 }
  else r1

/-- Concrete scenario of C1: `MAX_SETASKFOR_SZ = 2`, `connect(1)` and three
    announces by peer 1. -/
def c1ops : List Op :=
  [Op.initNode 1, Op.askFor 1 7 10, Op.askFor 1 7 11, Op.askFor 1 7 12]

/-- Checks that after `c1ops` all three items are in peer 1's set and the
    third item has a request row and a work-queue entry. -/
def c1check : Bool :=
  match run 60000000 2 c1ops with
  | some (s, _) =>
    (match mapFind 1 s.mapNodeAskForState with
     | some st => st.setAskFor == [10, 11, 12]
     | none => false)
    && (mapFind 12 s.mapInvRequests).isSome
    && s.invRequestsWorkQueue.contains (0, 12)
  | none => false

/-- Registered peer state used by the C1 witness. -/
def c1s : SchedState := ⟨[(1, ⟨[10, 11, 12], 7⟩)], [], []⟩

/-- Operations of the C2 witness: two peers announce item 5, the worker
    fetches it from peer 1. -/
def c2ops : List Op :=
  [Op.initNode 1, Op.initNode 2, Op.askFor 1 7 5, Op.askFor 2 8 5, Op.worker 1]

/-- Resulting state of `c2ops`. -/
def c2s : SchedState :=
  ⟨[(2, ⟨[5], 8⟩), (1, ⟨[5], 7⟩)], [(5, ⟨[1, 2], [2], 1, some 60000001⟩)],
   [(60000001, 5)]⟩

/-- Resulting ghost trace of `c2ops`. -/
def c2tr : List Ev :=
  [Ev.notify, Ev.ann 1 5, Ev.ann 2 5, Ev.retire 5, Ev.fetch 1 7 5 1]

/-- Concrete scenario of C3: peer 1 announces item 2 first, item 1 second. -/
def c3ops : List Op := [Op.initNode 1, Op.askFor 1 7 2, Op.askFor 1 7 1]

/-- Checks that both entries are due at 0 but stored in insertion order
    (item 2 before item 1), not sorted by item. -/
def c3check : Bool :=
  match run 60000000 10 c3ops with
  | some (s, _) => s.invRequestsWorkQueue == [(0, 2), (0, 1)]
  | none => false

/-- Items in fetch order during the subsequent worker pass. -/
def c3fetchOrder : List Nat :=
  (traceOf (run 60000000 10 (c3ops ++ [Op.worker 5]))).filterMap
    (fun e => match e with
      | Ev.fetch _ _ y _ => some y
      | _ => none)

/-- Resulting state of `c3ops`. -/
def c3s : SchedState :=
  ⟨[(1, ⟨[1, 2], 7⟩)],
   [(1, ⟨[1], [1], 0, some 0⟩), (2, ⟨[1], [1], 0, some 0⟩)],
   [(0, 2), (0, 1)]⟩

/-- Resulting ghost trace of `c3ops`. -/
def c3tr : List Ev := [Ev.notify, Ev.ann 1 2, Ev.notify, Ev.ann 1 1]

/-- Concrete scenario of C6: peers 1 and 2 announce item 5, the worker
    fetches from peer 1, peer 1 disconnects, reconnects with the same id,
    re-announces, and the worker fetches from peer 1 again. -/
def c6ops : List Op :=
  [Op.initNode 1, Op.initNode 2, Op.askFor 1 7 5, Op.askFor 2 8 5,
   Op.worker 1, Op.finalizeNode 1, Op.initNode 1, Op.askFor 1 7 5,
   Op.worker 2]

/-- The first eight operations of `c6ops` (before the second worker pass). -/
def c6prefix : List Op :=
  [Op.initNode 1, Op.initNode 2, Op.askFor 1 7 5, Op.askFor 2 8 5,
   Op.worker 1, Op.finalizeNode 1, Op.initNode 1, Op.askFor 1 7 5]

/-- Checks that peer 1 is fetched from twice for item 5 across `c6ops`, and
    that after `c6prefix` peer 1 — although already removed from `untried`
    by the worker's selection (a fetch from peer 1 is in the trace) — is
    back in the row's `notRequestedFrom`. -/
def c6check : Bool :=
  (match run 60000000 10 c6ops with
   | some (_, tr) =>
     (tr.filterMap (fun e => match e with
        | Ev.fetch p _ 5 _ => some p
        | _ => none)) == [1, 1]
   | none => false)
  && (match run 60000000 10 c6prefix with
      | some (s, tr) =>
        (match mapFind 5 s.mapInvRequests with
         | some r => r.notRequestedFrom == [1, 2]
         | none => false)
        && tr.any (fun e => match e with
             | Ev.fetch p _ y _ => p == 1 && y == 5
             | _ => false)
      | none => false)

/-- Resulting state of `c6ops`. -/
def c6s : SchedState :=
  ⟨[(1, ⟨[5], 7⟩), (2, ⟨[5], 8⟩)],
   [(5, ⟨[1, 2], [2], 1, some 60000002⟩)],
   [(60000002, 5)]⟩

/-- Resulting ghost trace of `c6ops`. -/
def c6tr : List Ev :=
  [Ev.notify, Ev.ann 1 5, Ev.ann 2 5, Ev.retire 5, Ev.fetch 1 7 5 1,
   Ev.retireP 1 5, Ev.notify, Ev.ann 1 5, Ev.retire 5, Ev.fetch 1 7 5 2]

/-- Is this event a fetch of item `x`? -/
def isFetchOf (x : Nat) : Ev → Bool
  | Ev.fetch _ _ y _ => y == x
  | _ => false

/-- Invariant I4 as the claim states it: an item has a work-queue entry only
    if either it has never been tried (no fetch of it in the trace) and the
    entry is due at 0, or it has an outstanding in-flight fetch whose retry
    deadline (issue time + `REQUEST_TIMEOUT`) equals the entry's due time. -/
def claimI4 (T : Nat) (s : SchedState) (tr : List Ev) : Prop :=
  ∀ e ∈ s.invRequestsWorkQueue,
    ((∀ ev ∈ tr, isFetchOf e.2 ev = false) ∧ e.1 = 0) ∨
    (outstanding tr e.2).map (fun pt => pt.2 + T) = some e.1

/-- Concrete scenario of C8: peers 1 and 2 announce item 5, the worker
    fetches from peer 1, then peer 1 — the in-flight peer — disconnects. -/
def c8ops : List Op :=
  [Op.initNode 1, Op.initNode 2, Op.askFor 1 7 5, Op.askFor 2 8 5,
   Op.worker 1, Op.finalizeNode 1]

/-- Resulting state of `c8ops`. -/
def c8s : SchedState :=
  ⟨[(2, ⟨[5], 8⟩)], [(5, ⟨[2], [2], 0, some 0⟩)], [(0, 5)]⟩

/-- Resulting ghost trace of `c8ops`. -/
def c8tr : List Ev :=
  [Ev.notify, Ev.ann 1 5, Ev.ann 2 5, Ev.retire 5, Ev.fetch 1 7 5 1,
   Ev.retireP 1 5, Ev.notify]

/-- Operations of the C5 witness: one announce of item 5. -/
def c5ops : List Op := [Op.initNode 1, Op.askFor 1 7 5]

/-- Resulting state of `c5ops`. -/
def c5s : SchedState :=
  ⟨[(1, ⟨[5], 7⟩)], [(5, ⟨[1], [1], 0, some 0⟩)], [(0, 5)]⟩

/-- Resulting ghost trace of `c5ops`. -/
def c5tr : List Ev := [Ev.notify, Ev.ann 1 5]

/-- State after `Completed 5 c5s`. -/
def c5s1 : SchedState := ⟨[(1, ⟨[], 7⟩)], [], []⟩

/-- Witness state for C4: peer 1 has announced item 5. -/
def c4s : SchedState :=
  ⟨[(1, ⟨[5], 7⟩)], [(5, ⟨[1], [1], 0, some 0⟩)], [(0, 5)]⟩

/-- Result state of `FinalizeNode 1 c2s`, for the C7 witness. -/
def c7s1 : SchedState :=
  ⟨[(2, ⟨[5], 8⟩)], [(5, ⟨[2], [2], 0, some 0⟩)], [(0, 5)]⟩

/-- The state component of `NetAskFor::AskFor` (its ghost events stripped),
    used for idempotence statements. -/
def askForState (maxSz n h0 x : Nat) (s : SchedState) : Option SchedState :=
  (AskFor maxSz n h0 x s).map Prod.fst

/-- Request row for item 5 after a single announce by peer 1. -/
def c9r : CInvState :=
  { nodes := [1], notRequestedFrom := [1],
    beingRequestedFrom := 0, workQueueIter := some 0 }

/-- State with peer 1 registered and nothing else. -/
def c9s0 : SchedState :=
  { mapNodeAskForState := [(1, { setAskFor := [], node := 0 })],
    mapInvRequests := [],
    invRequestsWorkQueue := [] }

/-- State after `AskFor 10 1 7 5` on `c9s0`. -/
def c9s1 : SchedState :=
  { mapNodeAskForState := [(1, { setAskFor := [5], node := 7 })],
    mapInvRequests := [(5, c9r)],
    invRequestsWorkQueue := [(0, 5)] }

/-- Peer state with three items, over a bound of 2. -/
def c10st : CNodeAskForState := { setAskFor := [10, 11, 12], node := 7 }

/-- State with only the over-limit peer 1 registered. -/
def c10s : SchedState :=
  { mapNodeAskForState := [(1, c10st)],
    mapInvRequests := [],
    invRequestsWorkQueue := [] }

theorem mapFind_mapSet_self {α : Type} (k : Nat) (v : α) (l : List (Nat × α)) :
    mapFind k (mapSet k v l) = (mapFind k l).map (fun _ => v) := by
  induction l with
  | nil => simp [mapFind, mapSet]
  | cons e l ih =>
    by_cases h : k = e.1
    · simp [mapFind, mapSet, h]
    · simp [mapFind, mapSet, h, ih]

theorem mapFind_mapSet_other {α : Type} (k j : Nat) (v : α) (l : List (Nat × α))
    (hne : j ≠ k) : mapFind j (mapSet k v l) = mapFind j l := by
  induction l with
  | nil => simp [mapFind, mapSet]
  | cons e l ih =>
    by_cases h : k = e.1
    · subst h
      simp [mapFind, mapSet, hne]
    · by_cases h2 : j = e.1
      · simp [mapFind, mapSet, h, h2]
      · simp [mapFind, mapSet, h, h2, ih]

theorem mapFind_mapErase_self {α : Type} (k : Nat) (l : List (Nat × α)) :
    mapFind k (mapErase k l) = none := by
  induction l with
  | nil => simp [mapFind, mapErase]
  | cons e l ih =>
    by_cases h : e.1 = k
    · simpa [mapErase, h] using ih
    · have hne : k ≠ e.1 := fun hh => h hh.symm
      simpa [mapErase, h, mapFind, hne] using ih

theorem mapFind_mapErase_other {α : Type} (k j : Nat) (l : List (Nat × α))
    (hne : j ≠ k) : mapFind j (mapErase k l) = mapFind j l := by
  induction l with
  | nil => simp [mapFind, mapErase]
  | cons e l ih =>
    obtain ⟨k1, v1⟩ := e
    by_cases h : k1 = k
    · have hj : j ≠ k1 := by
        intro hh
        exact hne (hh.trans h)
      have he : mapErase k ((k1, v1) :: l) = mapErase k l := by
        simp [mapErase, h]
      rw [he, ih]
      simp [mapFind, hj]
    · have he : mapErase k ((k1, v1) :: l) = (k1, v1) :: mapErase k l := by
        simp [mapErase, h]
      rw [he]
      by_cases h2 : j = k1
      · simp [mapFind, h2]
      · simp [mapFind, h2, ih]

theorem mapFind_mapInsertIfAbsent_self {α : Type} (k : Nat) (v : α)
    (l : List (Nat × α)) (h : mapFind k l = none) :
    mapFind k (mapInsertIfAbsent k v l) = some v := by
  simp [mapInsertIfAbsent, h, mapFind]

theorem mapFind_mapInsertIfAbsent_other {α : Type} (k j : Nat) (v : α)
    (l : List (Nat × α)) (hne : j ≠ k) :
    mapFind j (mapInsertIfAbsent k v l) = mapFind j l := by
  unfold mapInsertIfAbsent
  cases h : mapFind k l with
  | some w => rfl
  | none => simp [mapFind, hne]

theorem mapSet_find_self {α : Type} (k : Nat) (v : α) (l : List (Nat × α))
    (h : mapFind k l = some v) : mapSet k v l = l := by
  induction l with
  | nil => simp [mapSet]
  | cons e l ih =>
    by_cases hk : k = e.1
    · subst hk
      simp [mapFind] at h
      cases e with
      | mk k1 v1 => simp_all [mapSet]
    · simp [mapFind, hk] at h
      simp [mapSet, hk, ih h]

theorem mapSet_mapSet_self {α : Type} (k : Nat) (v w : α) (l : List (Nat × α)) :
    mapSet k v (mapSet k w l) = mapSet k v l := by
  induction l with
  | nil => simp [mapSet]
  | cons e l ih =>
    by_cases hk : k = e.1
    · simp [mapSet, hk]
    · simp [mapSet, hk, ih]

theorem mem_insSorted (a b : Nat) (l : List Nat) :
    b ∈ insSorted a l ↔ b = a ∨ b ∈ l := by
  induction l with
  | nil => simp [insSorted]
  | cons c l ih =>
    by_cases h1 : a < c
    · rw [show insSorted a (c :: l) = a :: c :: l by simp [insSorted, h1]]
      simp only [List.mem_cons]
    · by_cases h2 : a = c
      · rw [show insSorted a (c :: l) = c :: l by simp [insSorted, h1, h2]]
        subst h2
        simp only [List.mem_cons]
        tauto
      · rw [show insSorted a (c :: l) = c :: insSorted a l by simp [insSorted, h1, h2]]
        simp only [List.mem_cons, ih]
        tauto

theorem self_mem_insSorted (a : Nat) (l : List Nat) : a ∈ insSorted a l := by
  rw [mem_insSorted]
  exact Or.inl rfl

theorem insSorted_of_mem (a : Nat) (l : List Nat) (hs : l.Pairwise (· < ·))
    (h : a ∈ l) : insSorted a l = l := by
  induction l with
  | nil => simp at h
  | cons c l ih =>
    rcases List.mem_cons.mp h with h1 | h1
    · subst h1
      simp [insSorted]
    · have hc : c < a := (List.pairwise_cons.mp hs).1 a h1
      have h2 : ¬ a < c := by omega
      have h3 : a ≠ c := by omega
      simp [insSorted, h2, h3, ih (List.pairwise_cons.mp hs).2 h1]

theorem insSorted_pairwise (a : Nat) (l : List Nat) (hs : l.Pairwise (· < ·)) :
    (insSorted a l).Pairwise (· < ·) := by
  induction l with
  | nil => simp [insSorted]
  | cons c l ih =>
    rcases List.pairwise_cons.mp hs with ⟨hc, hl⟩
    by_cases h1 : a < c
    · rw [show insSorted a (c :: l) = a :: c :: l by simp [insSorted, h1]]
      refine List.pairwise_cons.mpr ⟨?_, hs⟩
      intro b hb
      rcases List.mem_cons.mp hb with h | h
      · omega
      · have := hc b h
        omega
    · by_cases h2 : a = c
      · rw [show insSorted a (c :: l) = c :: l by simp [insSorted, h1, h2]]
        exact hs
      · rw [show insSorted a (c :: l) = c :: insSorted a l by simp [insSorted, h1, h2]]
        refine List.pairwise_cons.mpr ⟨?_, ih hl⟩
        intro b hb
        rcases (mem_insSorted a b l).mp hb with h | h
        · omega
        · exact hc b h

theorem mem_wqInsert (d x : Nat) (e : Nat × Nat) (q : List (Nat × Nat)) :
    e ∈ wqInsert d x q ↔ e = (d, x) ∨ e ∈ q := by
  induction q with
  | nil => simp [wqInsert]
  | cons f q ih =>
    obtain ⟨d1, x1⟩ := f
    by_cases h : d1 ≤ d
    · rw [show wqInsert d x ((d1, x1) :: q) = (d1, x1) :: wqInsert d x q by
        simp [wqInsert, h]]
      simp only [List.mem_cons, ih]
      tauto
    · rw [show wqInsert d x ((d1, x1) :: q) = (d, x) :: (d1, x1) :: q by
        simp [wqInsert, h]]
      simp only [List.mem_cons]

theorem wqInsert_cons_le (d x d1 x1 : Nat) (q : List (Nat × Nat)) (h : d1 ≤ d) :
    wqInsert d x ((d1, x1) :: q) = (d1, x1) :: wqInsert d x q := by
  simp [wqInsert, h]

theorem wqInsert_sorted (d x : Nat) (q : List (Nat × Nat))
    (hs : q.Pairwise (fun a b => a.1 ≤ b.1)) :
    (wqInsert d x q).Pairwise (fun a b => a.1 ≤ b.1) := by
  induction q with
  | nil => simp [wqInsert]
  | cons f q ih =>
    obtain ⟨d1, x1⟩ := f
    rcases List.pairwise_cons.mp hs with ⟨hf, hq⟩
    by_cases h : d1 ≤ d
    · rw [wqInsert_cons_le d x d1 x1 q h]
      refine List.pairwise_cons.mpr ⟨?_, ih hq⟩
      intro e he
      rcases (mem_wqInsert d x e q).mp he with h1 | h1
      · subst h1
        exact h
      · exact hf e h1
    · rw [show wqInsert d x ((d1, x1) :: q) = (d, x) :: (d1, x1) :: q by
        simp [wqInsert, h]]
      refine List.pairwise_cons.mpr ⟨?_, hs⟩
      intro e he
      rcases List.mem_cons.mp he with h1 | h1
      · subst h1
        omega
      · have := hf e h1
        simp only
        omega

theorem wqInsert_snd_perm (d x : Nat) (q : List (Nat × Nat)) :
    ((wqInsert d x q).map Prod.snd).Perm (x :: q.map Prod.snd) := by
  induction q with
  | nil => simp [wqInsert]
  | cons f q ih =>
    obtain ⟨d1, x1⟩ := f
    by_cases h : d1 ≤ d
    · rw [wqInsert_cons_le d x d1 x1 q h]
      simp only [List.map_cons]
      exact (ih.cons x1).trans (List.Perm.swap x x1 (q.map Prod.snd))
    · rw [show wqInsert d x ((d1, x1) :: q) = (d, x) :: (d1, x1) :: q by
        simp [wqInsert, h]]
      simp only [List.map_cons]
      exact List.Perm.refl _

theorem wqErase_unique_snd (d x : Nat) (q : List (Nat × Nat))
    (hn : (q.map Prod.snd).Nodup) (hm : (d, x) ∈ q) :
    ∀ e ∈ wqEraseEntry d x q, e.2 ≠ x := by
  intro e he hex
  have hin : e ∈ q := (List.erase_sublist (d, x) q).subset he
  have heq : e = (d, x) := by
    have hex2 : Prod.snd e = Prod.snd (d, x) := hex
    exact List.inj_on_of_nodup_map hn hin hm hex2
  have hqn : q.Nodup := List.Nodup.of_map Prod.snd hn
  have := (List.Nodup.mem_erase_iff hqn).mp he
  exact this.1 heq

/-! ### The reachable-state invariant -/

/-! ### Trace fold lemmas -/

theorem unanswered_append (tr evs : List Ev) (x : Nat) :
    unanswered (tr ++ evs) x = List.foldl (unStep x) (unanswered tr x) evs := by
  simp [unanswered, List.foldl_append]

theorem outstanding_append (tr evs : List Ev) (x : Nat) :
    outstanding (tr ++ evs) x = List.foldl (outStep x) (outstanding tr x) evs := by
  simp [outstanding, List.foldl_append]

theorem annPeers_append (tr evs : List Ev) (x : Nat) :
    annPeers (tr ++ evs) x = List.foldl (annStep x) (annPeers tr x) evs := by
  simp [annPeers, List.foldl_append]

theorem fetchPeers_append (tr evs : List Ev) (x : Nat) :
    fetchPeers (tr ++ evs) x = List.foldl (fetchStep x) (fetchPeers tr x) evs := by
  simp [fetchPeers, List.foldl_append]

theorem mem_insNew (p q : Nat) (l : List Nat) :
    q ∈ insNew p l ↔ q = p ∨ q ∈ l := by
  unfold insNew
  by_cases h : p ∈ l
  · simp only [if_pos h]
    constructor
    · tauto
    · rintro (rfl | hq)
      · exact h
      · exact hq
  · simp only [if_neg h, List.mem_cons]

theorem insNew_nodup (p : Nat) (l : List Nat) (h : l.Nodup) :
    (insNew p l).Nodup := by
  unfold insNew
  by_cases hm : p ∈ l
  · simpa [hm] using h
  · rw [if_neg hm]
    exact List.nodup_cons.mpr ⟨hm, h⟩

theorem annStep_mono (x p : Nat) (acc : List Nat) (e : Ev) (h : p ∈ acc) :
    p ∈ annStep x acc e := by
  cases e with
  | ann q y =>
    by_cases hy : y = x
    · simp only [annStep, if_pos hy]
      exact (mem_insNew q p acc).mpr (Or.inr h)
    · simpa [annStep, hy] using h
  | notify => exact h
  | fetch q hh y t => exact h
  | retire y => exact h
  | retireP q y => exact h

theorem annPeers_foldl_mono (x p : Nat) (acc : List Nat) (evs : List Ev)
    (h : p ∈ acc) : p ∈ List.foldl (annStep x) acc evs := by
  induction evs generalizing acc with
  | nil => exact h
  | cons e evs ih => exact ih (annStep x acc e) (annStep_mono x p acc e h)

theorem annPeers_mono (x p : Nat) (tr evs : List Ev) (h : p ∈ annPeers tr x) :
    p ∈ annPeers (tr ++ evs) x := by
  rw [annPeers_append]
  exact annPeers_foldl_mono x p _ evs h

theorem annPeers_nodup (tr : List Ev) (x : Nat) : (annPeers tr x).Nodup := by
  have main : ∀ (evs : List Ev) (acc : List Nat), acc.Nodup →
      (List.foldl (annStep x) acc evs).Nodup := by
    intro evs
    induction evs with
    | nil => intro acc h; exact h
    | cons e evs ih =>
      intro acc h
      refine ih (annStep x acc e) ?_
      cases e with
      | ann q y =>
        by_cases hy : y = x
        · simpa only [annStep, if_pos hy] using insNew_nodup q acc h
        · simpa [annStep, hy] using h
      | notify => exact h
      | fetch q hh y t => exact h
      | retire y => exact h
      | retireP q y => exact h
  exact main tr [] List.nodup_nil

theorem fetchPeers_nodup (tr : List Ev) (x : Nat) : (fetchPeers tr x).Nodup := by
  have main : ∀ (evs : List Ev) (acc : List Nat), acc.Nodup →
      (List.foldl (fetchStep x) acc evs).Nodup := by
    intro evs
    induction evs with
    | nil => intro acc h; exact h
    | cons e evs ih =>
      intro acc h
      refine ih (fetchStep x acc e) ?_
      cases e with
      | fetch q hh y t =>
        by_cases hy : y = x
        · simpa only [fetchStep, if_pos hy] using insNew_nodup q acc h
        · simpa [fetchStep, hy] using h
      | notify => exact h
      | ann q y => exact h
      | retire y => exact h
      | retireP q y => exact h
  exact main tr [] List.nodup_nil

/-! ### Characterization equations for the operations -/

theorem snd_mem_iff (x : Nat) (q : List (Nat × Nat)) :
    x ∈ q.map Prod.snd ↔ ∃ d, (d, x) ∈ q := by
  simp only [List.mem_map]
  constructor
  · rintro ⟨⟨d, y⟩, hm, rfl⟩
    exact ⟨d, hm⟩
  · rintro ⟨d, hm⟩
    exact ⟨(d, x), hm, rfl⟩

theorem AskFor_eq_over (maxSz n h0 x : Nat) (s : SchedState)
    (st0 : CNodeAskForState)
    (hn : mapFind n s.mapNodeAskForState = some st0)
    (hlen : st0.setAskFor.length > maxSz) :
    AskFor maxSz n h0 x s =
      some ({ s with mapNodeAskForState :=
                mapSet n { st0 with node := h0 } s.mapNodeAskForState },
            [Ev.ann n x]) := by
  unfold AskFor
  rw [hn]
  simp [hlen]

theorem AskFor_eq_fresh (maxSz n h0 x : Nat) (s : SchedState)
    (st0 : CNodeAskForState)
    (hn : mapFind n s.mapNodeAskForState = some st0)
    (hlen : ¬ st0.setAskFor.length > maxSz)
    (hx : mapFind x s.mapInvRequests = none) :
    AskFor maxSz n h0 x s =
      some ({ s with
                mapNodeAskForState :=
                  mapSet n
                    { st0 with node := h0, setAskFor := insSorted x st0.setAskFor }
                    (mapSet n { st0 with node := h0 } s.mapNodeAskForState),
                mapInvRequests :=
                  mapInsertIfAbsent x
                    { nodes := [n], notRequestedFrom := [n],
                      beingRequestedFrom := 0, workQueueIter := some 0 }
                    s.mapInvRequests,
                invRequestsWorkQueue := wqInsert 0 x s.invRequestsWorkQueue },
            [Ev.notify, Ev.ann n x]) := by
  unfold AskFor
  rw [hn]
  simp [hx, hlen]

theorem AskFor_eq_exist (maxSz n h0 x : Nat) (s : SchedState)
    (st0 : CNodeAskForState) (r : CInvState)
    (hn : mapFind n s.mapNodeAskForState = some st0)
    (hlen : ¬ st0.setAskFor.length > maxSz)
    (hx : mapFind x s.mapInvRequests = some r) :
    AskFor maxSz n h0 x s =
      some ({ s with
                mapNodeAskForState :=
                  mapSet n
                    { st0 with node := h0, setAskFor := insSorted x st0.setAskFor }
                    (mapSet n { st0 with node := h0 } s.mapNodeAskForState),
                mapInvRequests :=
                  mapSet x
                    { r with nodes := insSorted n r.nodes,
                             notRequestedFrom :=
                               if n ∈ r.nodes then r.notRequestedFrom
                               else insSorted n r.notRequestedFrom }
                    s.mapInvRequests },
            [Ev.ann n x]) := by
  unfold AskFor
  rw [hn]
  simp [hx, hlen]

/-! ### Invariant preservation -/

theorem outStep_annLike (x : Nat) (acc : Option (Nat × Nat)) (e : Ev)
    (h : annLike e = true) : outStep x acc e = acc := by
  cases e <;> simp_all [annLike, outStep]

theorem unStep_annLike (x : Nat) (acc : List Nat) (e : Ev)
    (h : annLike e = true) : unStep x acc e = acc := by
  cases e <;> simp_all [annLike, unStep]

theorem fetchStep_annLike (x : Nat) (acc : List Nat) (e : Ev)
    (h : annLike e = true) : fetchStep x acc e = acc := by
  cases e <;> simp_all [annLike, fetchStep]

theorem outstanding_annLike (tr evs : List Ev) (x : Nat)
    (h : ∀ e ∈ evs, annLike e = true) :
    outstanding (tr ++ evs) x = outstanding tr x := by
  rw [outstanding_append]
  induction evs generalizing tr with
  | nil => rfl
  | cons e evs ih =>
    rw [List.foldl_cons, outStep_annLike x _ e (h e (List.mem_cons_self e evs))]
    exact ih tr (fun f hf => h f (List.mem_cons_of_mem e hf))

theorem unanswered_annLike (tr evs : List Ev) (x : Nat)
    (h : ∀ e ∈ evs, annLike e = true) :
    unanswered (tr ++ evs) x = unanswered tr x := by
  rw [unanswered_append]
  induction evs generalizing tr with
  | nil => rfl
  | cons e evs ih =>
    rw [List.foldl_cons, unStep_annLike x _ e (h e (List.mem_cons_self e evs))]
    exact ih tr (fun f hf => h f (List.mem_cons_of_mem e hf))

theorem fetchPeers_annLike (tr evs : List Ev) (x : Nat)
    (h : ∀ e ∈ evs, annLike e = true) :
    fetchPeers (tr ++ evs) x = fetchPeers tr x := by
  rw [fetchPeers_append]
  induction evs generalizing tr with
  | nil => rfl
  | cons e evs ih =>
    rw [List.foldl_cons, fetchStep_annLike x _ e (h e (List.mem_cons_self e evs))]
    exact ih tr (fun f hf => h f (List.mem_cons_of_mem e hf))

theorem outSpec_congr (T : Nat) (s s2 : SchedState) (tr tr2 : List Ev) (x : Nat)
    (hrows : s2.mapInvRequests = s.mapInvRequests)
    (hout : outstanding tr2 x = outstanding tr x)
    (h : OutSpec T s tr x) : OutSpec T s2 tr2 x := by
  unfold OutSpec at h ⊢
  rw [hout, hrows]
  exact h

/-- Appending only announce/notify events while the request table is
    unchanged preserves the trace invariant. -/
theorem tinv_annLike (T : Nat) (s s2 : SchedState) (tr evs : List Ev)
    (hrows : s2.mapInvRequests = s.mapInvRequests)
    (hevs : ∀ e ∈ evs, annLike e = true)
    (hT : TInv T s tr) : TInv T s2 (tr ++ evs) := by
  constructor
  · intro x
    exact outSpec_congr T s s2 tr (tr ++ evs) x hrows
      (outstanding_annLike tr evs x hevs) (hT.ghost x)
  · intro x p hp
    rw [fetchPeers_annLike tr evs x hevs] at hp
    exact annPeers_mono x p tr evs (hT.fetch_ann x p hp)
  · intro x r hr p hp
    rw [hrows] at hr
    exact annPeers_mono x p tr evs (hT.untried_ann x r hr p hp)
  · intro x
    rw [unanswered_annLike tr evs x hevs]
    exact hT.unans x

/-- Replacing a registered peer's state without changing its `setAskFor`
    (handle rebinding) preserves the state invariant. -/
theorem sinv_rebind (n : Nat) (s : SchedState) (st0 st1 : CNodeAskForState)
    (hn : mapFind n s.mapNodeAskForState = some st0)
    (hset : st1.setAskFor = st0.setAskFor)
    (hS : SInv s) :
    SInv { s with mapNodeAskForState := mapSet n st1 s.mapNodeAskForState } := by
  have hfind : ∀ m : Nat, mapFind m (mapSet n st1 s.mapNodeAskForState) =
      if m = n then some st1 else mapFind m s.mapNodeAskForState := by
    intro m
    by_cases hm : m = n
    · subst hm
      rw [mapFind_mapSet_self, hn]
      simp
    · rw [mapFind_mapSet_other n m st1 _ hm, if_neg hm]
  constructor
  · exact hS.wq_sorted
  · exact hS.wq_nodup
  · exact hS.cursor_acc
  · exact hS.entry_row
  · intro y r hr m hm
    obtain ⟨stm, hstm, hmem⟩ := hS.nodes_reg y r hr m hm
    by_cases hmn : m = n
    · subst hmn
      refine ⟨st1, ?_, ?_⟩
      · rw [hfind m]
        simp
      · rw [hn] at hstm
        cases hstm
        rw [hset]
        exact hmem
    · exact ⟨stm, by rw [hfind m, if_neg hmn]; exact hstm, hmem⟩
  · intro m stm hstm y hy
    rw [hfind m] at hstm
    by_cases hmn : m = n
    · rw [if_pos hmn] at hstm
      cases hstm
      rw [hset] at hy
      subst hmn
      exact hS.ask_reg m st0 hn y hy
    · rw [if_neg hmn] at hstm
      exact hS.ask_reg m stm hstm y hy
  · exact hS.untried_sub
  · exact hS.nodes_sorted
  · exact hS.untried_sorted
  · intro m stm hstm
    rw [hfind m] at hstm
    by_cases hmn : m = n
    · rw [if_pos hmn] at hstm
      cases hstm
      rw [hset]
      exact hS.ask_sorted n st0 hn
    · rw [if_neg hmn] at hstm
      exact hS.ask_sorted m stm hstm

/-- `InitializeNode` preserves both invariants. -/
theorem inv_initNode (T n : Nat) (s : SchedState) (tr : List Ev)
    (hS : SInv s) (hT : TInv T s tr) :
    SInv (InitializeNode n s) ∧ TInv T (InitializeNode n s) tr := by
  constructor
  · unfold InitializeNode mapInsertIfAbsent
    cases hn : mapFind n s.mapNodeAskForState with
    | some st => exact hS
    | none =>
      have hfind : ∀ m : Nat,
          mapFind m ((n, (⟨[], 0⟩ : CNodeAskForState)) :: s.mapNodeAskForState) =
          if m = n then some ⟨[], 0⟩ else mapFind m s.mapNodeAskForState := by
        intro m
        by_cases hm : m = n
        · subst hm
          simp [mapFind]
        · simp [mapFind, hm]
      constructor
      · exact hS.wq_sorted
      · exact hS.wq_nodup
      · exact hS.cursor_acc
      · exact hS.entry_row
      · intro y r hr m hm
        obtain ⟨stm, hstm, hmem⟩ := hS.nodes_reg y r hr m hm
        refine ⟨stm, ?_, hmem⟩
        rw [hfind m]
        by_cases hmn : m = n
        · subst hmn
          rw [hn] at hstm
          cases hstm
        · rw [if_neg hmn]
          exact hstm
      · intro m stm hstm y hy
        rw [hfind m] at hstm
        by_cases hmn : m = n
        · rw [if_pos hmn] at hstm
          cases hstm
          simp at hy
        · rw [if_neg hmn] at hstm
          exact hS.ask_reg m stm hstm y hy
      · exact hS.untried_sub
      · exact hS.nodes_sorted
      · exact hS.untried_sorted
      · intro m stm hstm
        rw [hfind m] at hstm
        by_cases hmn : m = n
        · rw [if_pos hmn] at hstm
          cases hstm
          simp
        · rw [if_neg hmn] at hstm
          exact hS.ask_sorted m stm hstm
  · have := tinv_annLike T s (InitializeNode n s) tr [] rfl (by simp) hT
    simpa using this

theorem annPeers_self_cons (tr : List Ev) (n x : Nat) (pre : List Ev)
    (hpre : ∀ e ∈ pre, annLike e = true) :
    n ∈ annPeers (tr ++ (pre ++ [Ev.ann n x])) x := by
  rw [← List.append_assoc, annPeers_append]
  simp [annStep, mem_insNew]

theorem inv_askFor_fresh (T maxSz n h0 x : Nat) (s : SchedState) (tr : List Ev)
    (st0 : CNodeAskForState)
    (hn : mapFind n s.mapNodeAskForState = some st0)
    (hx : mapFind x s.mapInvRequests = none)
    (hS : SInv s) (hT : TInv T s tr) :
    SInv { s with
            mapNodeAskForState :=
              mapSet n { st0 with node := h0, setAskFor := insSorted x st0.setAskFor }
                (mapSet n { st0 with node := h0 } s.mapNodeAskForState),
            mapInvRequests :=
              mapInsertIfAbsent x
                { nodes := [n], notRequestedFrom := [n],
                  beingRequestedFrom := 0, workQueueIter := some 0 }
                s.mapInvRequests,
            invRequestsWorkQueue := wqInsert 0 x s.invRequestsWorkQueue }
    ∧ TInv T { s with
            mapNodeAskForState :=
              mapSet n { st0 with node := h0, setAskFor := insSorted x st0.setAskFor }
                (mapSet n { st0 with node := h0 } s.mapNodeAskForState),
            mapInvRequests :=
              mapInsertIfAbsent x
                { nodes := [n], notRequestedFrom := [n],
                  beingRequestedFrom := 0, workQueueIter := some 0 }
                s.mapInvRequests,
            invRequestsWorkQueue := wqInsert 0 x s.invRequestsWorkQueue }
        (tr ++ [Ev.notify, Ev.ann n x]) := by
  set st1 : CNodeAskForState :=
    { st0 with node := h0, setAskFor := insSorted x st0.setAskFor } with hst1
  set rnew : CInvState :=
    { nodes := [n], notRequestedFrom := [n],
      beingRequestedFrom := 0, workQueueIter := some 0 } with hrnew
  have hpeers : mapSet n st1 (mapSet n { st0 with node := h0 } s.mapNodeAskForState)
      = mapSet n st1 s.mapNodeAskForState := mapSet_mapSet_self n st1 _ _
  have hfindP : ∀ m : Nat,
      mapFind m (mapSet n st1 (mapSet n { st0 with node := h0 } s.mapNodeAskForState)) =
      if m = n then some st1 else mapFind m s.mapNodeAskForState := by
    intro m
    rw [hpeers]
    by_cases hm : m = n
    · subst hm
      rw [mapFind_mapSet_self, hn]
      simp
    · rw [mapFind_mapSet_other n m st1 _ hm, if_neg hm]
  have hfindR : ∀ y : Nat,
      mapFind y (mapInsertIfAbsent x rnew s.mapInvRequests) =
      if y = x then some rnew else mapFind y s.mapInvRequests := by
    intro y
    by_cases hy : y = x
    · subst hy
      rw [mapFind_mapInsertIfAbsent_self y rnew _ hx]
      simp
    · rw [mapFind_mapInsertIfAbsent_other x y rnew _ hy, if_neg hy]
  have hxq : ∀ d : Nat, (d, x) ∉ s.invRequestsWorkQueue := by
    intro d hd
    obtain ⟨r, hr, _⟩ := hS.entry_row d x hd
    rw [hx] at hr
    cases hr
  have hevs : ∀ e ∈ [Ev.notify, Ev.ann n x], annLike e = true := by
    intro e he
    rcases List.mem_cons.mp he with rfl | he
    · rfl
    · rcases List.mem_cons.mp he with rfl | he
      · rfl
      · cases he
  constructor
  · constructor
    · exact wqInsert_sorted 0 x _ hS.wq_sorted
    · have hperm := wqInsert_snd_perm 0 x s.invRequestsWorkQueue
      rw [List.Perm.nodup_iff hperm]
      refine List.nodup_cons.mpr ⟨?_, hS.wq_nodup⟩
      intro hmem
      obtain ⟨d, hd⟩ := (snd_mem_iff x _).mp hmem
      exact hxq d hd
    · intro y r hy
      rw [hfindR y] at hy
      by_cases hyx : y = x
      · subst hyx
        rw [if_pos rfl] at hy
        cases hy
        exact ⟨0, rfl, (mem_wqInsert 0 y (0, y) _).mpr (Or.inl rfl)⟩
      · rw [if_neg hyx] at hy
        obtain ⟨d, hc, hm⟩ := hS.cursor_acc y r hy
        exact ⟨d, hc, (mem_wqInsert 0 x (d, y) _).mpr (Or.inr hm)⟩
    · intro d y hm
      rcases (mem_wqInsert 0 x (d, y) _).mp hm with heq | hin
      · injection heq with h1 h2
        subst h1
        subst h2
        exact ⟨rnew, by rw [hfindR y]; simp, rfl⟩
      · by_cases hyx : y = x
        · subst hyx
          exact absurd hin (hxq d)
        · obtain ⟨r, hr, hc⟩ := hS.entry_row d y hin
          exact ⟨r, by rw [hfindR y, if_neg hyx]; exact hr, hc⟩
    · intro y r hy m hm
      rw [hfindR y] at hy
      by_cases hyx : y = x
      · subst hyx
        rw [if_pos rfl] at hy
        cases hy
        have hmn : m = n := by simpa [hrnew] using hm
        subst hmn
        refine ⟨st1, by rw [hfindP m]; simp, ?_⟩
        exact self_mem_insSorted _ st0.setAskFor
      · rw [if_neg hyx] at hy
        obtain ⟨stm, hstm, hmem⟩ := hS.nodes_reg y r hy m hm
        by_cases hmn : m = n
        · subst hmn
          rw [hn] at hstm
          cases hstm
          refine ⟨st1, by rw [hfindP m]; simp, ?_⟩
          exact (mem_insSorted x y st0.setAskFor).mpr (Or.inr hmem)
        · exact ⟨stm, by rw [hfindP m, if_neg hmn]; exact hstm, hmem⟩
    · intro m stm hstm y hy
      rw [hfindP m] at hstm
      by_cases hmn : m = n
      · rw [if_pos hmn] at hstm
        cases hstm
        rcases (mem_insSorted x y st0.setAskFor).mp hy with rfl | hy0
        · refine ⟨rnew, by rw [hfindR y]; simp, ?_⟩
          simp [hrnew, hmn]
        · obtain ⟨r, hr, hmem⟩ := hS.ask_reg n st0 hn y hy0
          have hyx : y ≠ x := by
            intro hh
            rw [hh, hx] at hr
            cases hr
          refine ⟨r, by rw [hfindR y, if_neg hyx]; exact hr, ?_⟩
          rw [hmn]
          exact hmem
      · rw [if_neg hmn] at hstm
        obtain ⟨r, hr, hmem⟩ := hS.ask_reg m stm hstm y hy
        have hyx : y ≠ x := by
          intro hh
          rw [hh, hx] at hr
          cases hr
        exact ⟨r, by rw [hfindR y, if_neg hyx]; exact hr, hmem⟩
    · intro y r hy m hm
      rw [hfindR y] at hy
      by_cases hyx : y = x
      · subst hyx
        rw [if_pos rfl] at hy
        cases hy
        simpa [hrnew] using hm
      · rw [if_neg hyx] at hy
        exact hS.untried_sub y r hy m hm
    · intro y r hy
      rw [hfindR y] at hy
      by_cases hyx : y = x
      · subst hyx
        rw [if_pos rfl] at hy
        cases hy
        simp [hrnew]
      · rw [if_neg hyx] at hy
        exact hS.nodes_sorted y r hy
    · intro y r hy
      rw [hfindR y] at hy
      by_cases hyx : y = x
      · subst hyx
        rw [if_pos rfl] at hy
        cases hy
        simp [hrnew]
      · rw [if_neg hyx] at hy
        exact hS.untried_sorted y r hy
    · intro m stm hstm
      rw [hfindP m] at hstm
      by_cases hmn : m = n
      · rw [if_pos hmn] at hstm
        cases hstm
        exact insSorted_pairwise x st0.setAskFor (hS.ask_sorted n st0 hn)
      · rw [if_neg hmn] at hstm
        exact hS.ask_sorted m stm hstm
  · constructor
    · intro y
      unfold OutSpec
      rw [outstanding_annLike tr _ y hevs]
      by_cases hyx : y = x
      · subst hyx
        have hg := hT.ghost y
        unfold OutSpec at hg
        cases hout : outstanding tr y with
        | some pt =>
          rw [hout] at hg
          obtain ⟨r, hr, _⟩ := hg
          rw [hx] at hr
          cases hr
        | none =>
          intro r hr
          rw [hfindR y] at hr
          rw [if_pos rfl] at hr
          cases hr
          rfl
      · have hg := hT.ghost y
        unfold OutSpec at hg
        cases hout : outstanding tr y with
        | some pt =>
          rw [hout] at hg
          obtain ⟨r, hr, hc, hb, hmem, hnm⟩ := hg
          exact ⟨r, by rw [hfindR y, if_neg hyx]; exact hr, hc, hb, hmem, hnm⟩
        | none =>
          rw [hout] at hg
          intro r hr
          rw [hfindR y, if_neg hyx] at hr
          exact hg r hr
    · intro y p hp
      rw [fetchPeers_annLike tr _ y hevs] at hp
      exact annPeers_mono y p tr _ (hT.fetch_ann y p hp)
    · intro y r hy p hp
      rw [hfindR y] at hy
      by_cases hyx : y = x
      · subst hyx
        rw [if_pos rfl] at hy
        cases hy
        have hpn : p = n := by simpa [hrnew] using hp
        subst hpn
        refine annPeers_self_cons tr p y [Ev.notify] ?_
        intro e he
        rw [List.mem_singleton] at he
        subst he
        rfl
      · rw [if_neg hyx] at hy
        exact annPeers_mono y p tr _ (hT.untried_ann y r hy p hp)
    · intro y
      rw [unanswered_annLike tr _ y hevs]
      exact hT.unans y

theorem inv_askFor_exist (T n h0 x : Nat) (s : SchedState) (tr : List Ev)
    (st0 : CNodeAskForState) (r : CInvState)
    (hn : mapFind n s.mapNodeAskForState = some st0)
    (hx : mapFind x s.mapInvRequests = some r)
    (hS : SInv s) (hT : TInv T s tr) :
    SInv { s with
            mapNodeAskForState :=
              mapSet n { st0 with node := h0, setAskFor := insSorted x st0.setAskFor }
                (mapSet n { st0 with node := h0 } s.mapNodeAskForState),
            mapInvRequests :=
              mapSet x
                { r with nodes := insSorted n r.nodes,
                         notRequestedFrom :=
                           if n ∈ r.nodes then r.notRequestedFrom
                           else insSorted n r.notRequestedFrom }
                s.mapInvRequests }
    ∧ TInv T { s with
            mapNodeAskForState :=
              mapSet n { st0 with node := h0, setAskFor := insSorted x st0.setAskFor }
                (mapSet n { st0 with node := h0 } s.mapNodeAskForState),
            mapInvRequests :=
              mapSet x
                { r with nodes := insSorted n r.nodes,
                         notRequestedFrom :=
                           if n ∈ r.nodes then r.notRequestedFrom
                           else insSorted n r.notRequestedFrom }
                s.mapInvRequests }
        (tr ++ [Ev.ann n x]) := by
  set st1 : CNodeAskForState :=
    { st0 with node := h0, setAskFor := insSorted x st0.setAskFor } with hst1
  set r1 : CInvState :=
    { r with nodes := insSorted n r.nodes,
             notRequestedFrom :=
               if n ∈ r.nodes then r.notRequestedFrom
               else insSorted n r.notRequestedFrom } with hr1
  have hfindP : ∀ m : Nat,
      mapFind m (mapSet n st1 (mapSet n { st0 with node := h0 } s.mapNodeAskForState)) =
      if m = n then some st1 else mapFind m s.mapNodeAskForState := by
    intro m
    rw [mapSet_mapSet_self n st1 _ _]
    by_cases hm : m = n
    · subst hm
      rw [mapFind_mapSet_self, hn]
      simp
    · rw [mapFind_mapSet_other n m st1 _ hm, if_neg hm]
  have hfindR : ∀ y : Nat,
      mapFind y (mapSet x r1 s.mapInvRequests) =
      if y = x then some r1 else mapFind y s.mapInvRequests := by
    intro y
    by_cases hy : y = x
    · subst hy
      rw [mapFind_mapSet_self, hx]
      simp
    · rw [mapFind_mapSet_other x y r1 _ hy, if_neg hy]
  have hevs : ∀ e ∈ [Ev.ann n x], annLike e = true := by
    intro e he
    rw [List.mem_singleton] at he
    subst he
    rfl
  have huntr : ∀ m : Nat, m ∈ r1.notRequestedFrom → m = n ∨ m ∈ r.notRequestedFrom := by
    intro m hm
    rw [hr1] at hm
    simp only at hm
    by_cases hmem : n ∈ r.nodes
    · rw [if_pos hmem] at hm
      exact Or.inr hm
    · rw [if_neg hmem] at hm
      exact (mem_insSorted n m r.notRequestedFrom).mp hm
  constructor
  · constructor
    · exact hS.wq_sorted
    · exact hS.wq_nodup
    · intro y rr hy
      rw [hfindR y] at hy
      by_cases hyx : y = x
      · subst hyx
        rw [if_pos rfl] at hy
        cases hy
        obtain ⟨d, hc, hm⟩ := hS.cursor_acc y r hx
        exact ⟨d, hc, hm⟩
      · rw [if_neg hyx] at hy
        exact hS.cursor_acc y rr hy
    · intro d y hm
      obtain ⟨ry, hry, hc⟩ := hS.entry_row d y hm
      by_cases hyx : y = x
      · subst hyx
        rw [hx] at hry
        cases hry
        exact ⟨r1, by rw [hfindR y]; simp, hc⟩
      · exact ⟨ry, by rw [hfindR y, if_neg hyx]; exact hry, hc⟩
    · intro y rr hy m hm
      rw [hfindR y] at hy
      by_cases hyx : y = x
      · subst hyx
        rw [if_pos rfl] at hy
        cases hy
        rcases (mem_insSorted n m r.nodes).mp hm with rfl | hm0
        · exact ⟨st1, by rw [hfindP m]; simp, self_mem_insSorted _ st0.setAskFor⟩
        · obtain ⟨stm, hstm, hmem⟩ := hS.nodes_reg y r hx m hm0
          by_cases hmn : m = n
          · subst hmn
            rw [hn] at hstm
            cases hstm
            exact ⟨st1, by rw [hfindP m]; simp,
              (mem_insSorted _ y st0.setAskFor).mpr (Or.inr hmem)⟩
          · exact ⟨stm, by rw [hfindP m, if_neg hmn]; exact hstm, hmem⟩
      · rw [if_neg hyx] at hy
        obtain ⟨stm, hstm, hmem⟩ := hS.nodes_reg y rr hy m hm
        by_cases hmn : m = n
        · subst hmn
          rw [hn] at hstm
          cases hstm
          exact ⟨st1, by rw [hfindP m]; simp,
            (mem_insSorted _ y st0.setAskFor).mpr (Or.inr hmem)⟩
        · exact ⟨stm, by rw [hfindP m, if_neg hmn]; exact hstm, hmem⟩
    · intro m stm hstm y hy
      rw [hfindP m] at hstm
      by_cases hmn : m = n
      · rw [if_pos hmn] at hstm
        cases hstm
        rcases (mem_insSorted x y st0.setAskFor).mp hy with rfl | hy0
        · refine ⟨r1, by rw [hfindR y]; simp, ?_⟩
          rw [hr1]
          simp only
          rw [hmn]
          exact self_mem_insSorted n r.nodes
        · obtain ⟨ry, hry, hmem⟩ := hS.ask_reg n st0 hn y hy0
          by_cases hyx : y = x
          · subst hyx
            rw [hx] at hry
            cases hry
            refine ⟨r1, by rw [hfindR y]; simp, ?_⟩
            rw [hr1]
            simp only
            rw [hmn]
            exact (mem_insSorted n n r.nodes).mpr (Or.inl rfl)
          · refine ⟨ry, by rw [hfindR y, if_neg hyx]; exact hry, ?_⟩
            rw [hmn]
            exact hmem
      · rw [if_neg hmn] at hstm
        obtain ⟨ry, hry, hmem⟩ := hS.ask_reg m stm hstm y hy
        by_cases hyx : y = x
        · subst hyx
          rw [hx] at hry
          cases hry
          exact ⟨r1, by rw [hfindR y]; simp,
            by rw [hr1]; simp only; exact (mem_insSorted n m r.nodes).mpr (Or.inr hmem)⟩
        · exact ⟨ry, by rw [hfindR y, if_neg hyx]; exact hry, hmem⟩
    · intro y rr hy m hm
      rw [hfindR y] at hy
      by_cases hyx : y = x
      · subst hyx
        rw [if_pos rfl] at hy
        cases hy
        rcases huntr m hm with rfl | hm0
        · exact self_mem_insSorted m r.nodes
        · exact (mem_insSorted n m r.nodes).mpr (Or.inr (hS.untried_sub y r hx m hm0))
      · rw [if_neg hyx] at hy
        exact hS.untried_sub y rr hy m hm
    · intro y rr hy
      rw [hfindR y] at hy
      by_cases hyx : y = x
      · subst hyx
        rw [if_pos rfl] at hy
        cases hy
        exact insSorted_pairwise n r.nodes (hS.nodes_sorted y r hx)
      · rw [if_neg hyx] at hy
        exact hS.nodes_sorted y rr hy
    · intro y rr hy
      rw [hfindR y] at hy
      by_cases hyx : y = x
      · subst hyx
        rw [if_pos rfl] at hy
        cases hy
        rw [hr1]
        simp only
        by_cases hmem : n ∈ r.nodes
        · rw [if_pos hmem]
          exact hS.untried_sorted y r hx
        · rw [if_neg hmem]
          exact insSorted_pairwise n r.notRequestedFrom (hS.untried_sorted y r hx)
      · rw [if_neg hyx] at hy
        exact hS.untried_sorted y rr hy
    · intro m stm hstm
      rw [hfindP m] at hstm
      by_cases hmn : m = n
      · rw [if_pos hmn] at hstm
        cases hstm
        exact insSorted_pairwise x st0.setAskFor (hS.ask_sorted n st0 hn)
      · rw [if_neg hmn] at hstm
        exact hS.ask_sorted m stm hstm
  · constructor
    · intro y
      unfold OutSpec
      rw [outstanding_annLike tr _ y hevs]
      by_cases hyx : y = x
      · subst hyx
        have hg := hT.ghost y
        unfold OutSpec at hg
        cases hout : outstanding tr y with
        | some pt =>
          rw [hout] at hg
          obtain ⟨rr, hrr, hc, hb, hmem, hnm⟩ := hg
          rw [hx] at hrr
          cases hrr
          refine ⟨r1, by rw [hfindR y]; simp, hc, hb, ?_, ?_⟩
          · rw [hr1]
            simp only
            exact (mem_insSorted n pt.1 r.nodes).mpr (Or.inr hmem)
          · intro hcon
            rcases huntr pt.1 hcon with rfl | h0
            · rw [hr1] at hcon
              simp only at hcon
              by_cases hmm : pt.1 ∈ r.nodes
              · rw [if_pos hmm] at hcon
                exact hnm hcon
              · exact hmm hmem
            · exact hnm h0
        | none =>
          rw [hout] at hg
          intro rr hrr
          rw [hfindR y] at hrr
          rw [if_pos rfl] at hrr
          cases hrr
          have := hg r hx
          rw [hr1]
          simp only
          exact this
      · have hg := hT.ghost y
        unfold OutSpec at hg
        cases hout : outstanding tr y with
        | some pt =>
          rw [hout] at hg
          obtain ⟨rr, hrr, hc, hb, hmem, hnm⟩ := hg
          exact ⟨rr, by rw [hfindR y, if_neg hyx]; exact hrr, hc, hb, hmem, hnm⟩
        | none =>
          rw [hout] at hg
          intro rr hrr
          rw [hfindR y, if_neg hyx] at hrr
          exact hg rr hrr
    · intro y p hp
      rw [fetchPeers_annLike tr _ y hevs] at hp
      exact annPeers_mono y p tr _ (hT.fetch_ann y p hp)
    · intro y rr hy p hp
      rw [hfindR y] at hy
      by_cases hyx : y = x
      · subst hyx
        rw [if_pos rfl] at hy
        cases hy
        rcases huntr p hp with rfl | h0
        · have : (tr ++ [Ev.ann p y]) = tr ++ ([] ++ [Ev.ann p y]) := by simp
          rw [this]
          exact annPeers_self_cons tr p y [] (by intro e he; cases he)
        · exact annPeers_mono y p tr _ (hT.untried_ann y r hx p h0)
      · rw [if_neg hyx] at hy
        exact annPeers_mono y p tr _ (hT.untried_ann y rr hy p hp)
    · intro y
      rw [unanswered_annLike tr _ y hevs]
      exact hT.unans y

/-- `NetAskFor::AskFor` preserves both invariants. -/
theorem inv_askFor (T maxSz n h0 x : Nat) (s s2 : SchedState) (tr evs : List Ev)
    (hS : SInv s) (hT : TInv T s tr)
    (h : AskFor maxSz n h0 x s = some (s2, evs)) :
    SInv s2 ∧ TInv T s2 (tr ++ evs) := by
  cases hn : mapFind n s.mapNodeAskForState with
  | none =>
    unfold AskFor at h
    rw [hn] at h
    cases h
  | some st0 =>
    by_cases hlen : st0.setAskFor.length > maxSz
    · rw [AskFor_eq_over maxSz n h0 x s st0 hn hlen] at h
      injection h with h1
      injection h1 with hA hB
      subst hA
      subst hB
      constructor
      · exact sinv_rebind n s st0 { st0 with node := h0 } hn rfl hS
      · refine tinv_annLike T s _ tr [Ev.ann n x] rfl ?_ hT
        intro e he
        rw [List.mem_singleton] at he
        subst he
        rfl
    · cases hx : mapFind x s.mapInvRequests with
      | none =>
        rw [AskFor_eq_fresh maxSz n h0 x s st0 hn hlen hx] at h
        injection h with h1
        injection h1 with hA hB
        subst hA
        subst hB
        exact inv_askFor_fresh T maxSz n h0 x s tr st0 hn hx hS hT
      | some r =>
        rw [AskFor_eq_exist maxSz n h0 x s st0 r hn hlen hx] at h
        injection h with h1
        injection h1 with hA hB
        subst hA
        subst hB
        exact inv_askFor_exist T n h0 x s tr st0 r hn hx hS hT

theorem annStep_quiet (x : Nat) (acc : List Nat) (e : Ev)
    (h : quiet e = true) : annStep x acc e = acc := by
  cases e <;> simp_all [quiet, annStep]

theorem fetchStep_quiet (x : Nat) (acc : List Nat) (e : Ev)
    (h : quiet e = true) : fetchStep x acc e = acc := by
  cases e <;> simp_all [quiet, fetchStep]

theorem annPeers_quiet (tr evs : List Ev) (x : Nat)
    (h : ∀ e ∈ evs, quiet e = true) :
    annPeers (tr ++ evs) x = annPeers tr x := by
  rw [annPeers_append]
  induction evs generalizing tr with
  | nil => rfl
  | cons e evs ih =>
    rw [List.foldl_cons, annStep_quiet x _ e (h e (List.mem_cons_self e evs))]
    exact ih tr (fun f hf => h f (List.mem_cons_of_mem e hf))

theorem fetchPeers_quiet (tr evs : List Ev) (x : Nat)
    (h : ∀ e ∈ evs, quiet e = true) :
    fetchPeers (tr ++ evs) x = fetchPeers tr x := by
  rw [fetchPeers_append]
  induction evs generalizing tr with
  | nil => rfl
  | cons e evs ih =>
    rw [List.foldl_cons, fetchStep_quiet x _ e (h e (List.mem_cons_self e evs))]
    exact ih tr (fun f hf => h f (List.mem_cons_of_mem e hf))

theorem foldl_outStep_retire_other (x y : Nat) (evs : List Ev)
    (acc : Option (Nat × Nat)) (h : ∀ e ∈ evs, e = Ev.retire x) (hxy : y ≠ x) :
    List.foldl (outStep y) acc evs = acc := by
  induction evs generalizing acc with
  | nil => rfl
  | cons e evs ih =>
    have he := h e (List.mem_cons_self e evs)
    subst he
    rw [List.foldl_cons]
    have hstep : outStep y acc (Ev.retire x) = acc := by
      have hxy2 : ¬ x = y := fun hh => hxy hh.symm
      simp [outStep, hxy2]
    rw [hstep]
    exact ih _ (fun f hf => h f (List.mem_cons_of_mem _ hf))

theorem foldl_outStep_retire_self (x : Nat) (evs : List Ev)
    (acc : Option (Nat × Nat)) (h : ∀ e ∈ evs, e = Ev.retire x)
    (hne : evs ≠ []) : List.foldl (outStep x) acc evs = none := by
  induction evs generalizing acc with
  | nil => exact absurd rfl hne
  | cons e evs ih =>
    have he := h e (List.mem_cons_self e evs)
    subst he
    rw [List.foldl_cons]
    have hstep : outStep x acc (Ev.retire x) = none := by simp [outStep]
    rw [hstep]
    cases evs with
    | nil => rfl
    | cons f evs2 =>
      exact ih none (fun g hg => h g (List.mem_cons_of_mem _ hg)) (by simp)

theorem foldl_unStep_retire_other (x y : Nat) (evs : List Ev)
    (acc : List Nat) (h : ∀ e ∈ evs, e = Ev.retire x) (hxy : y ≠ x) :
    List.foldl (unStep y) acc evs = acc := by
  induction evs generalizing acc with
  | nil => rfl
  | cons e evs ih =>
    have he := h e (List.mem_cons_self e evs)
    subst he
    rw [List.foldl_cons]
    have hstep : unStep y acc (Ev.retire x) = acc := by
      have hxy2 : ¬ x = y := fun hh => hxy hh.symm
      simp [unStep, hxy2]
    rw [hstep]
    exact ih _ (fun f hf => h f (List.mem_cons_of_mem _ hf))

theorem foldl_unStep_retire_self (x : Nat) (evs : List Ev)
    (acc : List Nat) (h : ∀ e ∈ evs, e = Ev.retire x)
    (hne : evs ≠ []) : List.foldl (unStep x) acc evs = [] := by
  induction evs generalizing acc with
  | nil => exact absurd rfl hne
  | cons e evs ih =>
    have he := h e (List.mem_cons_self e evs)
    subst he
    rw [List.foldl_cons]
    have hstep : unStep x acc (Ev.retire x) = [] := by simp [unStep]
    rw [hstep]
    cases evs with
    | nil => rfl
    | cons f evs2 =>
      exact ih [] (fun g hg => h g (List.mem_cons_of_mem _ hg)) (by simp)

theorem mapErase_mapSet {α : Type} (k : Nat) (v : α) (l : List (Nat × α)) :
    mapErase k (mapSet k v l) = mapErase k l := by
  induction l with
  | nil => simp [mapSet, mapErase]
  | cons e l ih =>
    obtain ⟨k1, v1⟩ := e
    by_cases h : k = k1
    · subst h
      rw [show mapSet k v ((k, v1) :: l) = (k, v) :: l by simp [mapSet]]
      simp [mapErase]
    · rw [show mapSet k v ((k1, v1) :: l) = (k1, v1) :: mapSet k v l by simp [mapSet, h]]
      have hne : ¬ k1 = k := fun hh => h hh.symm
      simp only [mapErase, List.filter_cons] at ih ⊢
      simp only [ne_eq, decide_not] at ih ⊢
      simp [hne, ih]

theorem pairwise_lt_nodup (l : List Nat) (h : l.Pairwise (· < ·)) : l.Nodup :=
  h.imp (fun hlt => Nat.ne_of_lt hlt)

theorem forgetLoop_find (inv : Nat) (ns : List Nat)
    (m m2 : List (Nat × CNodeAskForState))
    (h : forgetLoop inv ns m = some m2) (hnd : ns.Nodup) :
    ∀ k, mapFind k m2 =
      if k ∈ ns then (mapFind k m).map
        (fun st => { st with setAskFor := st.setAskFor.erase inv })
      else mapFind k m := by
  induction ns generalizing m with
  | nil =>
    unfold forgetLoop at h
    injection h with h1
    subst h1
    intro k
    simp
  | cons n ns ih =>
    unfold forgetLoop at h
    cases hn : mapFind n m with
    | none =>
      rw [hn] at h
      cases h
    | some st =>
      rw [hn] at h
      have hnmem : n ∉ ns := (List.nodup_cons.mp hnd).1
      have hih := ih _ h (List.nodup_cons.mp hnd).2
      intro k
      rw [hih k]
      by_cases hk : k = n
      · subst hk
        rw [if_neg (fun hh => hnmem hh), if_pos (List.mem_cons_self k ns)]
        rw [mapFind_mapSet_self, hn]
        simp
      · have hfk : mapFind k (mapSet n { st with setAskFor := st.setAskFor.erase inv } m)
            = mapFind k m := mapFind_mapSet_other n k _ m hk
        by_cases hks : k ∈ ns
        · rw [if_pos hks, if_pos (List.mem_cons_of_mem n hks), hfk]
        · rw [if_neg hks, if_neg (by
            intro hh
            rcases List.mem_cons.mp hh with hh1 | hh2
            · exact hk hh1
            · exact hks hh2), hfk]

theorem Forget_eq (x : Nat) (r : CInvState) (s : SchedState)
    (m2 : List (Nat × CNodeAskForState))
    (hloop : forgetLoop x r.nodes s.mapNodeAskForState = some m2) :
    Forget x r s =
      some ({ mapNodeAskForState := m2,
              mapInvRequests := mapErase x s.mapInvRequests,
              invRequestsWorkQueue :=
                match r.workQueueIter with
                | some d => wqEraseEntry d x s.invRequestsWorkQueue
                | none => s.invRequestsWorkQueue },
            [Ev.retire x]) := by
  unfold Forget
  rw [hloop]

/-- Erasing every reference to item `x` (the state effect common to `Forget`
    reached from `Completed` and from the worker's give-up branch) preserves
    both invariants.  `evs` is the non-empty batch of `retire x` ghost events
    the caller appends. -/
theorem inv_forget_like (T x d : Nat) (s : SchedState) (tr : List Ev)
    (r : CInvState) (m2 : List (Nat × CNodeAskForState)) (evs : List Ev)
    (hS : SInv s) (hT : TInv T s tr)
    (hfind : mapFind x s.mapInvRequests = some r)
    (hloop : forgetLoop x r.nodes s.mapNodeAskForState = some m2)
    (hd : (d, x) ∈ s.invRequestsWorkQueue)
    (hevs : ∀ e ∈ evs, e = Ev.retire x) (hne : evs ≠ []) :
    SInv { mapNodeAskForState := m2,
           mapInvRequests := mapErase x s.mapInvRequests,
           invRequestsWorkQueue := wqEraseEntry d x s.invRequestsWorkQueue }
    ∧ TInv T
        { mapNodeAskForState := m2,
          mapInvRequests := mapErase x s.mapInvRequests,
          invRequestsWorkQueue := wqEraseEntry d x s.invRequestsWorkQueue }
        (tr ++ evs) := by
  have hnodesnd : r.nodes.Nodup := pairwise_lt_nodup _ (hS.nodes_sorted x r hfind)
  have hfindP2 := forgetLoop_find x r.nodes _ m2 hloop hnodesnd
  have hfindR2 : ∀ y : Nat, mapFind y (mapErase x s.mapInvRequests) =
      if y = x then none else mapFind y s.mapInvRequests := by
    intro y
    by_cases hy : y = x
    · subst hy
      rw [if_pos rfl]
      exact mapFind_mapErase_self y s.mapInvRequests
    · rw [if_neg hy]
      exact mapFind_mapErase_other x y s.mapInvRequests hy
  have hq2sub : List.Sublist (wqEraseEntry d x s.invRequestsWorkQueue)
      s.invRequestsWorkQueue :=
    List.erase_sublist (d, x) s.invRequestsWorkQueue
  have hq_no_x : ∀ e ∈ wqEraseEntry d x s.invRequestsWorkQueue, e.2 ≠ x :=
    wqErase_unique_snd d x _ hS.wq_nodup hd
  have hq2mem : ∀ dy y : Nat, y ≠ x →
      ((dy, y) ∈ wqEraseEntry d x s.invRequestsWorkQueue ↔
       (dy, y) ∈ s.invRequestsWorkQueue) := by
    intro dy y hy
    constructor
    · intro hh
      exact hq2sub.subset hh
    · intro hh
      refine List.mem_erase_of_ne ?_ |>.mpr hh
      intro hcon
      injection hcon with h1 h2
      exact hy h2
  have hevs_quiet : ∀ e ∈ evs, quiet e = true := by
    intro e he
    rw [hevs e he]
    rfl
  constructor
  · constructor
    · exact List.Pairwise.sublist hq2sub hS.wq_sorted
    · exact List.Nodup.sublist (hq2sub.map Prod.snd) hS.wq_nodup
    · intro y rr hy
      rw [hfindR2 y] at hy
      by_cases hyx : y = x
      · rw [if_pos hyx] at hy
        cases hy
      · rw [if_neg hyx] at hy
        obtain ⟨dy, hc, hm⟩ := hS.cursor_acc y rr hy
        exact ⟨dy, hc, (hq2mem dy y hyx).mpr hm⟩
    · intro dy y hm
      have hyx : y ≠ x := hq_no_x (dy, y) hm
      obtain ⟨rr, hrr, hc⟩ := hS.entry_row dy y (hq2sub.subset hm)
      exact ⟨rr, by rw [hfindR2 y, if_neg hyx]; exact hrr, hc⟩
    · intro y rr hy m hm
      rw [hfindR2 y] at hy
      by_cases hyx : y = x
      · rw [if_pos hyx] at hy
        cases hy
      · rw [if_neg hyx] at hy
        obtain ⟨stm, hstm, hmem⟩ := hS.nodes_reg y rr hy m hm
        rw [hfindP2 m]
        by_cases hmr : m ∈ r.nodes
        · rw [if_pos hmr, hstm]
          refine ⟨_, rfl, ?_⟩
          have hsort := hS.ask_sorted m stm hstm
          exact (List.mem_erase_of_ne hyx).mpr hmem
        · rw [if_neg hmr]
          exact ⟨stm, hstm, hmem⟩
    · intro m stm hstm y hy
      rw [hfindP2 m] at hstm
      by_cases hmr : m ∈ r.nodes
      · rw [if_pos hmr] at hstm
        cases hstm0 : mapFind m s.mapNodeAskForState with
        | none =>
          rw [hstm0] at hstm
          cases hstm
        | some stm0 =>
          rw [hstm0] at hstm
          injection hstm with hstm1
          subst hstm1
          have hy0 : y ∈ stm0.setAskFor := List.mem_of_mem_erase hy
          have hyx : y ≠ x := by
            intro hh
            subst hh
            have hsort := hS.ask_sorted m stm0 hstm0
            have hnd := pairwise_lt_nodup _ hsort
            exact (hnd.mem_erase_iff.mp hy).1 rfl
          obtain ⟨ry, hry, hmem⟩ := hS.ask_reg m stm0 hstm0 y hy0
          exact ⟨ry, by rw [hfindR2 y, if_neg hyx]; exact hry, hmem⟩
      · rw [if_neg hmr] at hstm
        obtain ⟨ry, hry, hmem⟩ := hS.ask_reg m stm hstm y hy
        have hyx : y ≠ x := by
          intro hh
          subst hh
          rw [hfind] at hry
          cases hry
          exact hmr hmem
        exact ⟨ry, by rw [hfindR2 y, if_neg hyx]; exact hry, hmem⟩
    · intro y rr hy m hm
      rw [hfindR2 y] at hy
      by_cases hyx : y = x
      · rw [if_pos hyx] at hy
        cases hy
      · rw [if_neg hyx] at hy
        exact hS.untried_sub y rr hy m hm
    · intro y rr hy
      rw [hfindR2 y] at hy
      by_cases hyx : y = x
      · rw [if_pos hyx] at hy
        cases hy
      · rw [if_neg hyx] at hy
        exact hS.nodes_sorted y rr hy
    · intro y rr hy
      rw [hfindR2 y] at hy
      by_cases hyx : y = x
      · rw [if_pos hyx] at hy
        cases hy
      · rw [if_neg hyx] at hy
        exact hS.untried_sorted y rr hy
    · intro m stm hstm
      rw [hfindP2 m] at hstm
      by_cases hmr : m ∈ r.nodes
      · rw [if_pos hmr] at hstm
        cases hstm0 : mapFind m s.mapNodeAskForState with
        | none =>
          rw [hstm0] at hstm
          cases hstm
        | some stm0 =>
          rw [hstm0] at hstm
          injection hstm with hstm1
          subst hstm1
          exact List.Pairwise.sublist (List.erase_sublist x stm0.setAskFor)
            (hS.ask_sorted m stm0 hstm0)
      · rw [if_neg hmr] at hstm
        exact hS.ask_sorted m stm hstm
  · constructor
    · intro y
      unfold OutSpec
      by_cases hyx : y = x
      · subst hyx
        rw [outstanding_append, foldl_outStep_retire_self y evs _ hevs hne]
        intro rr hrr
        rw [hfindR2 y, if_pos rfl] at hrr
        cases hrr
      · rw [outstanding_append, foldl_outStep_retire_other x y evs _ hevs hyx]
        have hg := hT.ghost y
        unfold OutSpec at hg
        cases hout : outstanding tr y with
        | some pt =>
          rw [hout] at hg
          obtain ⟨rr, hrr, hc, hb, hmem, hnm⟩ := hg
          exact ⟨rr, by rw [hfindR2 y, if_neg hyx]; exact hrr, hc, hb, hmem, hnm⟩
        | none =>
          rw [hout] at hg
          intro rr hrr
          rw [hfindR2 y, if_neg hyx] at hrr
          exact hg rr hrr
    · intro y p hp
      rw [fetchPeers_quiet tr evs y hevs_quiet] at hp
      rw [annPeers_quiet tr evs y hevs_quiet]
      exact hT.fetch_ann y p hp
    · intro y rr hy p hp
      rw [hfindR2 y] at hy
      by_cases hyx : y = x
      · rw [if_pos hyx] at hy
        cases hy
      · rw [if_neg hyx] at hy
        rw [annPeers_quiet tr evs y hevs_quiet]
        exact hT.untried_ann y rr hy p hp
    · intro y
      by_cases hyx : y = x
      · subst hyx
        rw [unanswered_append, foldl_unStep_retire_self y evs _ hevs hne]
        simp
      · rw [unanswered_append, foldl_unStep_retire_other x y evs _ hevs hyx]
        exact hT.unans y

/-- `NetAskFor::Completed` preserves both invariants. -/
theorem inv_completed (T x : Nat) (s s2 : SchedState) (tr evs : List Ev)
    (hS : SInv s) (hT : TInv T s tr)
    (h : Completed x s = some (s2, evs)) :
    SInv s2 ∧ TInv T s2 (tr ++ evs) := by
  unfold Completed at h
  cases hx : mapFind x s.mapInvRequests with
  | none =>
    rw [hx] at h
    injection h with h1
    injection h1 with hA hB
    subst hA
    subst hB
    rw [List.append_nil]
    exact ⟨hS, hT⟩
  | some r =>
    rw [hx] at h
    dsimp only at h
    unfold Forget at h
    cases hloop : forgetLoop x r.nodes s.mapNodeAskForState with
    | none =>
      rw [hloop] at h
      cases h
    | some m2 =>
      rw [hloop] at h
      obtain ⟨d, hc, hdq⟩ := hS.cursor_acc x r hx
      rw [hc] at h
      injection h with h1
      injection h1 with hA hB
      subst hA
      subst hB
      exact inv_forget_like T x d s tr r m2 [Ev.retire x] hS hT hx hloop hdq
        (by intro e he; rw [List.mem_singleton] at he; exact he) (by simp)

theorem finStep_peers (n y : Nat) (s : SchedState) :
    (finStep n s y).1.mapNodeAskForState = s.mapNodeAskForState := by
  unfold finStep
  cases mapFind y s.mapInvRequests with
  | none => rfl
  | some r =>
    dsimp only
    by_cases hb : r.beingRequestedFrom = n
    · simp [hb]
    · simp [hb]

theorem finLoop_peers (n : Nat) (pending : List Nat) (s : SchedState) :
    (finLoop n pending s).1.mapNodeAskForState = s.mapNodeAskForState := by
  induction pending generalizing s with
  | nil => rfl
  | cons y pending ih =>
    unfold finLoop
    dsimp only
    rw [ih (finStep n s y).1, finStep_peers n y s]

theorem outStep_notify (z : Nat) (acc : Option (Nat × Nat)) :
    outStep z acc Ev.notify = acc := rfl

theorem unStep_notify (z : Nat) (acc : List Nat) :
    unStep z acc Ev.notify = acc := rfl

theorem outStep_retireP_other (z p y : Nat) (acc : Option (Nat × Nat))
    (h : y ≠ z) : outStep z acc (Ev.retireP p y) = acc := by
  simp [outStep, h]

theorem unStep_retireP_other (z p y : Nat) (acc : List Nat)
    (h : y ≠ z) : unStep z acc (Ev.retireP p y) = acc := by
  simp [unStep, h]

theorem finStep_mid (T n y : Nat) (pending : List Nat) (s s1 : SchedState)
    (tr evs1 : List Ev)
    (hM : FinMid T n (y :: pending) s tr)
    (hstep : finStep n s y = (s1, evs1)) :
    FinMid T n pending s1 (tr ++ evs1) := by
  unfold finStep at hstep
  cases hy : mapFind y s.mapInvRequests with
  | none =>
    rw [hy] at hstep
    injection hstep with hA hB
    subst hA
    subst hB
    rw [List.append_nil]
    refine ⟨hM.wq_sorted, hM.wq_nodup, hM.cursor_acc, hM.entry_row, hM.nodes_reg,
      hM.ask_reg_ex, ?_, hM.untried_sub, hM.nodes_sorted, hM.untried_sorted,
      hM.ask_sorted, hM.ghost, hM.fetch_ann, hM.untried_ann, hM.unans⟩
    intro z rz hz hnz
    rcases List.mem_cons.mp (hM.n_pending z rz hz hnz) with heq | hp
    · subst heq
      rw [hy] at hz
      cases hz
    · exact hp
  | some r =>
    rw [hy] at hstep
    dsimp only at hstep
    have hnodesnd : r.nodes.Nodup := pairwise_lt_nodup _ (hM.nodes_sorted y r hy)
    have huntnd : r.notRequestedFrom.Nodup :=
      pairwise_lt_nodup _ (hM.untried_sorted y r hy)
    by_cases hb : r.beingRequestedFrom = n
    · -- the disconnecting peer is in flight for y: requeue at 0
      rw [if_pos hb] at hstep
      obtain ⟨d, hc, hdq⟩ := hM.cursor_acc y r hy
      rw [hc] at hstep
      injection hstep with hA hB
      subst hA
      subst hB
      set r2 : CInvState :=
        { nodes := r.nodes.erase n,
          notRequestedFrom := r.notRequestedFrom.erase n,
          beingRequestedFrom := 0, workQueueIter := some 0 } with hr2
      have hfindR : ∀ z : Nat, mapFind z (mapSet y r2 s.mapInvRequests) =
          if z = y then some r2 else mapFind z s.mapInvRequests := by
        intro z
        by_cases hz : z = y
        · subst hz
          rw [mapFind_mapSet_self, hy]
          simp
        · rw [mapFind_mapSet_other y z r2 _ hz, if_neg hz]
      have hq1sub : List.Sublist (wqEraseEntry d y s.invRequestsWorkQueue)
          s.invRequestsWorkQueue := List.erase_sublist (d, y) s.invRequestsWorkQueue
      have hq1_no_y : ∀ e ∈ wqEraseEntry d y s.invRequestsWorkQueue, e.2 ≠ y :=
        wqErase_unique_snd d y _ hM.wq_nodup hdq
      have hq1mem : ∀ dz z : Nat, z ≠ y →
          ((dz, z) ∈ wqEraseEntry d y s.invRequestsWorkQueue ↔
           (dz, z) ∈ s.invRequestsWorkQueue) := by
        intro dz z hz
        constructor
        · intro hh
          exact hq1sub.subset hh
        · intro hh
          refine List.mem_erase_of_ne ?_ |>.mpr hh
          intro hcon
          injection hcon with h1 h2
          exact hz h2
      have hmemq2 : ∀ e : Nat × Nat,
          e ∈ wqInsert 0 y (wqEraseEntry d y s.invRequestsWorkQueue) ↔
          e = (0, y) ∨ e ∈ wqEraseEntry d y s.invRequestsWorkQueue :=
        fun e => mem_wqInsert 0 y e _
      have hevq : ∀ e ∈ [Ev.retireP n y, Ev.notify], quiet e = true := by
        intro e he
        rcases List.mem_cons.mp he with rfl | he2
        · rfl
        · rw [List.mem_singleton] at he2
          subst he2
          rfl
      have hout_other : ∀ z : Nat, z ≠ y →
          outstanding (tr ++ [Ev.retireP n y, Ev.notify]) z = outstanding tr z := by
        intro z hz
        rw [outstanding_append, List.foldl_cons,
          outStep_retireP_other z n y _ (fun hh => hz hh.symm), List.foldl_cons,
          outStep_notify, List.foldl_nil]
      have hun_other : ∀ z : Nat, z ≠ y →
          unanswered (tr ++ [Ev.retireP n y, Ev.notify]) z = unanswered tr z := by
        intro z hz
        rw [unanswered_append, List.foldl_cons,
          unStep_retireP_other z n y _ (fun hh => hz hh.symm), List.foldl_cons,
          unStep_notify, List.foldl_nil]
      constructor
      · exact wqInsert_sorted 0 y _ (List.Pairwise.sublist hq1sub hM.wq_sorted)
      · have hperm := wqInsert_snd_perm 0 y (wqEraseEntry d y s.invRequestsWorkQueue)
        rw [List.Perm.nodup_iff hperm]
        refine List.nodup_cons.mpr ⟨?_, List.Nodup.sublist (hq1sub.map Prod.snd) hM.wq_nodup⟩
        intro hmem
        obtain ⟨dz, hdz⟩ := (snd_mem_iff y _).mp hmem
        exact hq1_no_y (dz, y) hdz rfl
      · intro z rz hz
        rw [hfindR z] at hz
        by_cases hzy : z = y
        · subst hzy
          rw [if_pos rfl] at hz
          cases hz
          exact ⟨0, rfl, (hmemq2 (0, z)).mpr (Or.inl rfl)⟩
        · rw [if_neg hzy] at hz
          obtain ⟨dz, hcz, hmz⟩ := hM.cursor_acc z rz hz
          exact ⟨dz, hcz, (hmemq2 (dz, z)).mpr (Or.inr ((hq1mem dz z hzy).mpr hmz))⟩
      · intro dz z hmz
        rcases (hmemq2 (dz, z)).mp hmz with heq | hin
        · injection heq with h1 h2
          subst h1
          subst h2
          exact ⟨r2, by rw [hfindR z]; simp, rfl⟩
        · have hzy : z ≠ y := hq1_no_y (dz, z) hin
          obtain ⟨rz, hrz, hcz⟩ := hM.entry_row dz z (hq1sub.subset hin)
          exact ⟨rz, by rw [hfindR z, if_neg hzy]; exact hrz, hcz⟩
      · intro z rz hz m hm
        rw [hfindR z] at hz
        by_cases hzy : z = y
        · subst hzy
          rw [if_pos rfl] at hz
          cases hz
          exact hM.nodes_reg z r hy m (List.mem_of_mem_erase hm)
        · rw [if_neg hzy] at hz
          exact hM.nodes_reg z rz hz m hm
      · intro m stm hstm hmn z hz
        obtain ⟨rz, hrz, hmem⟩ := hM.ask_reg_ex m stm hstm hmn z hz
        by_cases hzy : z = y
        · subst hzy
          rw [hy] at hrz
          cases hrz
          refine ⟨r2, by rw [hfindR z]; simp, ?_⟩
          exact (List.mem_erase_of_ne hmn).mpr hmem
        · exact ⟨rz, by rw [hfindR z, if_neg hzy]; exact hrz, hmem⟩
      · intro z rz hz hnz
        rw [hfindR z] at hz
        by_cases hzy : z = y
        · subst hzy
          rw [if_pos rfl] at hz
          cases hz
          exact absurd rfl (hnodesnd.mem_erase_iff.mp hnz).1
        · rw [if_neg hzy] at hz
          rcases List.mem_cons.mp (hM.n_pending z rz hz hnz) with heq | hp
          · exact absurd heq hzy
          · exact hp
      · intro z rz hz m hm
        rw [hfindR z] at hz
        by_cases hzy : z = y
        · subst hzy
          rw [if_pos rfl] at hz
          cases hz
          have hm0 : m ∈ r.notRequestedFrom := List.mem_of_mem_erase hm
          have hmn : m ≠ n := (huntnd.mem_erase_iff.mp hm).1
          exact (List.mem_erase_of_ne hmn).mpr (hM.untried_sub z r hy m hm0)
        · rw [if_neg hzy] at hz
          exact hM.untried_sub z rz hz m hm
      · intro z rz hz
        rw [hfindR z] at hz
        by_cases hzy : z = y
        · subst hzy
          rw [if_pos rfl] at hz
          cases hz
          exact List.Pairwise.sublist (List.erase_sublist n r.nodes)
            (hM.nodes_sorted z r hy)
        · rw [if_neg hzy] at hz
          exact hM.nodes_sorted z rz hz
      · intro z rz hz
        rw [hfindR z] at hz
        by_cases hzy : z = y
        · subst hzy
          rw [if_pos rfl] at hz
          cases hz
          exact List.Pairwise.sublist (List.erase_sublist n r.notRequestedFrom)
            (hM.untried_sorted z r hy)
        · rw [if_neg hzy] at hz
          exact hM.untried_sorted z rz hz
      · exact hM.ask_sorted
      · intro z
        unfold OutSpec
        by_cases hzy : z = y
        · subst hzy
          have hg := hM.ghost z
          unfold OutSpec at hg
          cases hout : outstanding tr z with
          | some pt =>
            rw [hout] at hg
            obtain ⟨r', hr', hc', hbf, hmem', hnm'⟩ := hg
            rw [hy] at hr'
            cases hr'
            have hpt1 : pt.1 = n := by rw [← hbf, hb]
            have : outstanding (tr ++ [Ev.retireP n z, Ev.notify]) z = none := by
              rw [outstanding_append, hout, List.foldl_cons]
              have : outStep z (some pt) (Ev.retireP n z) = none := by
                simp [outStep, hpt1]
              rw [this, List.foldl_cons, outStep_notify, List.foldl_nil]
            rw [this]
            intro rz hrz
            rw [hfindR z, if_pos rfl] at hrz
            cases hrz
            rfl
          | none =>
            rw [hout] at hg
            have : outstanding (tr ++ [Ev.retireP n z, Ev.notify]) z = none := by
              rw [outstanding_append, hout, List.foldl_cons]
              have : outStep z none (Ev.retireP n z) = none := by
                simp [outStep]
              rw [this, List.foldl_cons, outStep_notify, List.foldl_nil]
            rw [this]
            intro rz hrz
            rw [hfindR z, if_pos rfl] at hrz
            cases hrz
            rfl
        · rw [hout_other z hzy]
          have hg := hM.ghost z
          unfold OutSpec at hg
          cases hout : outstanding tr z with
          | some pt =>
            rw [hout] at hg
            obtain ⟨rz, hrz, hc', hbf, hmem', hnm'⟩ := hg
            exact ⟨rz, by rw [hfindR z, if_neg hzy]; exact hrz, hc', hbf, hmem', hnm'⟩
          | none =>
            rw [hout] at hg
            intro rz hrz
            rw [hfindR z, if_neg hzy] at hrz
            exact hg rz hrz
      · intro z p hp
        rw [fetchPeers_quiet tr _ z hevq] at hp
        rw [annPeers_quiet tr _ z hevq]
        exact hM.fetch_ann z p hp
      · intro z rz hz p hp
        rw [hfindR z] at hz
        rw [annPeers_quiet tr _ z hevq]
        by_cases hzy : z = y
        · subst hzy
          rw [if_pos rfl] at hz
          cases hz
          exact hM.untried_ann z r hy p (List.mem_of_mem_erase hp)
        · rw [if_neg hzy] at hz
          exact hM.untried_ann z rz hz p hp
      · intro z
        by_cases hzy : z = y
        · subst hzy
          have hle : (unanswered (tr ++ [Ev.retireP n z, Ev.notify]) z).length ≤
              (unanswered tr z).length := by
            rw [unanswered_append, List.foldl_cons, List.foldl_cons, unStep_notify,
              List.foldl_nil]
            have : unStep z (unanswered tr z) (Ev.retireP n z) =
                (unanswered tr z).erase n := by
              simp [unStep]
            rw [this]
            exact (List.erase_sublist n (unanswered tr z)).length_le
          exact le_trans hle (hM.unans z)
        · rw [hun_other z hzy]
          exact hM.unans z
    · -- the disconnecting peer is not in flight for y
      rw [if_neg hb] at hstep
      injection hstep with hA hB
      subst hA
      subst hB
      set r1 : CInvState :=
        { r with nodes := r.nodes.erase n,
                 notRequestedFrom := r.notRequestedFrom.erase n } with hr1
      have hfindR : ∀ z : Nat, mapFind z (mapSet y r1 s.mapInvRequests) =
          if z = y then some r1 else mapFind z s.mapInvRequests := by
        intro z
        by_cases hz : z = y
        · subst hz
          rw [mapFind_mapSet_self, hy]
          simp
        · rw [mapFind_mapSet_other y z r1 _ hz, if_neg hz]
      rw [List.append_nil]
      constructor
      · exact hM.wq_sorted
      · exact hM.wq_nodup
      · intro z rz hz
        rw [hfindR z] at hz
        by_cases hzy : z = y
        · subst hzy
          rw [if_pos rfl] at hz
          cases hz
          exact hM.cursor_acc z r hy
        · rw [if_neg hzy] at hz
          exact hM.cursor_acc z rz hz
      · intro dz z hmz
        obtain ⟨rz, hrz, hcz⟩ := hM.entry_row dz z hmz
        by_cases hzy : z = y
        · subst hzy
          rw [hy] at hrz
          cases hrz
          exact ⟨r1, by rw [hfindR z]; simp, hcz⟩
        · exact ⟨rz, by rw [hfindR z, if_neg hzy]; exact hrz, hcz⟩
      · intro z rz hz m hm
        rw [hfindR z] at hz
        by_cases hzy : z = y
        · subst hzy
          rw [if_pos rfl] at hz
          cases hz
          exact hM.nodes_reg z r hy m (List.mem_of_mem_erase hm)
        · rw [if_neg hzy] at hz
          exact hM.nodes_reg z rz hz m hm
      · intro m stm hstm hmn z hz
        obtain ⟨rz, hrz, hmem⟩ := hM.ask_reg_ex m stm hstm hmn z hz
        by_cases hzy : z = y
        · subst hzy
          rw [hy] at hrz
          cases hrz
          refine ⟨r1, by rw [hfindR z]; simp, ?_⟩
          exact (List.mem_erase_of_ne hmn).mpr hmem
        · exact ⟨rz, by rw [hfindR z, if_neg hzy]; exact hrz, hmem⟩
      · intro z rz hz hnz
        rw [hfindR z] at hz
        by_cases hzy : z = y
        · subst hzy
          rw [if_pos rfl] at hz
          cases hz
          exact absurd rfl (hnodesnd.mem_erase_iff.mp hnz).1
        · rw [if_neg hzy] at hz
          rcases List.mem_cons.mp (hM.n_pending z rz hz hnz) with heq | hp
          · exact absurd heq hzy
          · exact hp
      · intro z rz hz m hm
        rw [hfindR z] at hz
        by_cases hzy : z = y
        · subst hzy
          rw [if_pos rfl] at hz
          cases hz
          have hm0 : m ∈ r.notRequestedFrom := List.mem_of_mem_erase hm
          have hmn : m ≠ n := (huntnd.mem_erase_iff.mp hm).1
          exact (List.mem_erase_of_ne hmn).mpr (hM.untried_sub z r hy m hm0)
        · rw [if_neg hzy] at hz
          exact hM.untried_sub z rz hz m hm
      · intro z rz hz
        rw [hfindR z] at hz
        by_cases hzy : z = y
        · subst hzy
          rw [if_pos rfl] at hz
          cases hz
          exact List.Pairwise.sublist (List.erase_sublist n r.nodes)
            (hM.nodes_sorted z r hy)
        · rw [if_neg hzy] at hz
          exact hM.nodes_sorted z rz hz
      · intro z rz hz
        rw [hfindR z] at hz
        by_cases hzy : z = y
        · subst hzy
          rw [if_pos rfl] at hz
          cases hz
          exact List.Pairwise.sublist (List.erase_sublist n r.notRequestedFrom)
            (hM.untried_sorted z r hy)
        · rw [if_neg hzy] at hz
          exact hM.untried_sorted z rz hz
      · exact hM.ask_sorted
      · intro z
        unfold OutSpec
        by_cases hzy : z = y
        · subst hzy
          have hg := hM.ghost z
          unfold OutSpec at hg
          cases hout : outstanding tr z with
          | some pt =>
            rw [hout] at hg
            obtain ⟨r', hr', hc', hbf, hmem', hnm'⟩ := hg
            rw [hy] at hr'
            cases hr'
            have hptn : pt.1 ≠ n := by
              intro hh
              rw [hbf, hh] at hb
              exact hb rfl
            refine ⟨r1, by rw [hfindR z]; simp, hc', hbf, ?_, ?_⟩
            · exact (List.mem_erase_of_ne hptn).mpr hmem'
            · intro hcon
              exact hnm' (List.mem_of_mem_erase hcon)
          | none =>
            rw [hout] at hg
            intro rz hrz
            rw [hfindR z, if_pos rfl] at hrz
            cases hrz
            exact hg r hy
        · have hg := hM.ghost z
          unfold OutSpec at hg
          cases hout : outstanding tr z with
          | some pt =>
            rw [hout] at hg
            obtain ⟨rz, hrz, hc', hbf, hmem', hnm'⟩ := hg
            exact ⟨rz, by rw [hfindR z, if_neg hzy]; exact hrz, hc', hbf, hmem', hnm'⟩
          | none =>
            rw [hout] at hg
            intro rz hrz
            rw [hfindR z, if_neg hzy] at hrz
            exact hg rz hrz
      · exact hM.fetch_ann
      · intro z rz hz p hp
        rw [hfindR z] at hz
        by_cases hzy : z = y
        · subst hzy
          rw [if_pos rfl] at hz
          cases hz
          exact hM.untried_ann z r hy p (List.mem_of_mem_erase hp)
        · rw [if_neg hzy] at hz
          exact hM.untried_ann z rz hz p hp
      · exact hM.unans

theorem finLoop_mid (T n : Nat) (pending : List Nat) (s : SchedState)
    (tr : List Ev) (hM : FinMid T n pending s tr) :
    FinMid T n [] (finLoop n pending s).1 (tr ++ (finLoop n pending s).2) := by
  induction pending generalizing s tr with
  | nil =>
    rw [show finLoop n [] s = (s, []) from rfl]
    rw [List.append_nil]
    refine ⟨hM.wq_sorted, hM.wq_nodup, hM.cursor_acc, hM.entry_row, hM.nodes_reg,
      hM.ask_reg_ex, hM.n_pending, hM.untried_sub, hM.nodes_sorted,
      hM.untried_sorted, hM.ask_sorted, hM.ghost, hM.fetch_ann, hM.untried_ann,
      hM.unans⟩
  | cons y pending ih =>
    have hstep := finStep_mid T n y pending s (finStep n s y).1 tr
      (finStep n s y).2 hM rfl
    have hrec := ih (finStep n s y).1 (tr ++ (finStep n s y).2) hstep
    unfold finLoop
    dsimp only
    rw [List.append_assoc] at hrec
    exact hrec

/-- `FinalizeNode` preserves both invariants. -/
theorem inv_finalize (T n : Nat) (s s2 : SchedState) (tr evs : List Ev)
    (hS : SInv s) (hT : TInv T s tr)
    (h : FinalizeNode n s = some (s2, evs)) :
    SInv s2 ∧ TInv T s2 (tr ++ evs) := by
  unfold FinalizeNode at h
  cases hn : mapFind n s.mapNodeAskForState with
  | none =>
    rw [hn] at h
    cases h
  | some st =>
    rw [hn] at h
    dsimp only at h
    injection h with h1
    injection h1 with hA hB
    subst hA
    subst hB
    have hM0 : FinMid T n st.setAskFor s tr := by
      refine ⟨hS.wq_sorted, hS.wq_nodup, hS.cursor_acc, hS.entry_row, hS.nodes_reg,
        ?_, ?_, hS.untried_sub, hS.nodes_sorted, hS.untried_sorted, hS.ask_sorted,
        hT.ghost, hT.fetch_ann, hT.untried_ann, hT.unans⟩
      · intro m stm hstm hmn z hz
        exact hS.ask_reg m stm hstm z hz
      · intro z rz hz hnz
        obtain ⟨st', hst', hmem⟩ := hS.nodes_reg z rz hz n hnz
        rw [hn] at hst'
        cases hst'
        exact hmem
    have hM := finLoop_mid T n st.setAskFor s tr hM0
    set s1 := (finLoop n st.setAskFor s).1 with hs1
    set evs1 := (finLoop n st.setAskFor s).2 with hevs1
    have hpeers : s1.mapNodeAskForState = s.mapNodeAskForState :=
      finLoop_peers n st.setAskFor s
    have hfindP : ∀ m : Nat,
        mapFind m (mapErase n s1.mapNodeAskForState) =
        if m = n then none else mapFind m s.mapNodeAskForState := by
      intro m
      by_cases hm : m = n
      · subst hm
        rw [if_pos rfl]
        exact mapFind_mapErase_self m s1.mapNodeAskForState
      · rw [if_neg hm, mapFind_mapErase_other n m _ hm, hpeers]
    constructor
    · constructor
      · exact hM.wq_sorted
      · exact hM.wq_nodup
      · exact hM.cursor_acc
      · exact hM.entry_row
      · intro z rz hz m hm
        by_cases hmn : m = n
        · subst hmn
          exact absurd (hM.n_pending z rz hz hm) (List.not_mem_nil z)
        · obtain ⟨stm, hstm, hmem⟩ := hM.nodes_reg z rz hz m hm
          rw [hpeers] at hstm
          exact ⟨stm, by rw [hfindP m, if_neg hmn]; exact hstm, hmem⟩
      · intro m stm hstm z hz
        rw [hfindP m] at hstm
        by_cases hmn : m = n
        · rw [if_pos hmn] at hstm
          cases hstm
        · rw [if_neg hmn] at hstm
          exact hM.ask_reg_ex m stm (by rw [hpeers]; exact hstm) hmn z hz
      · exact hM.untried_sub
      · exact hM.nodes_sorted
      · exact hM.untried_sorted
      · intro m stm hstm
        rw [hfindP m] at hstm
        by_cases hmn : m = n
        · rw [if_pos hmn] at hstm
          cases hstm
        · rw [if_neg hmn] at hstm
          exact hM.ask_sorted m stm (by rw [hpeers]; exact hstm)
    · constructor
      · intro z
        have hg := hM.ghost z
        unfold OutSpec at hg ⊢
        exact hg
      · exact hM.fetch_ann
      · intro z rz hz p hp
        exact hM.untried_ann z rz hz p hp
      · exact hM.unans

theorem outStep_fetch_other (z p h0 y t : Nat) (acc : Option (Nat × Nat))
    (h : y ≠ z) : outStep z acc (Ev.fetch p h0 y t) = acc := by
  simp [outStep, h]

theorem unStep_fetch_other (z p h0 y t : Nat) (acc : List Nat)
    (h : y ≠ z) : unStep z acc (Ev.fetch p h0 y t) = acc := by
  simp [unStep, h]

theorem outStep_retire_other (z y : Nat) (acc : Option (Nat × Nat))
    (h : y ≠ z) : outStep z acc (Ev.retire y) = acc := by
  simp [outStep, h]

theorem unStep_retire_other (z y : Nat) (acc : List Nat)
    (h : y ≠ z) : unStep z acc (Ev.retire y) = acc := by
  simp [unStep, h]

theorem inv_processHead (T now d x : Nat) (rest : List (Nat × Nat))
    (s s1 : SchedState) (tr e1 : List Ev)
    (hqeq : s.invRequestsWorkQueue = (d, x) :: rest) (hdle : d ≤ now)
    (hS : SInv s) (hT : TInv T s tr)
    (h : processHead T now s = some (s1, e1)) :
    SInv s1 ∧ TInv T s1 (tr ++ e1) := by
  have hws : ((d, x) :: rest).Pairwise (fun a b => a.1 ≤ b.1) := by
    rw [← hqeq]
    exact hS.wq_sorted
  have hwn : (((d, x) :: rest).map Prod.snd).Nodup := by
    rw [← hqeq]
    exact hS.wq_nodup
  have hrest_sorted : rest.Pairwise (fun a b => a.1 ≤ b.1) :=
    (List.pairwise_cons.mp hws).2
  have hxrest : x ∉ rest.map Prod.snd := by
    have := hwn
    rw [List.map_cons] at this
    exact (List.nodup_cons.mp this).1
  have hrest_nodup : (rest.map Prod.snd).Nodup := by
    have := hwn
    rw [List.map_cons] at this
    exact (List.nodup_cons.mp this).2
  have hxrest_pair : ∀ dz : Nat, (dz, x) ∉ rest := by
    intro dz hdz
    exact hxrest ((snd_mem_iff x rest).mpr ⟨dz, hdz⟩)
  unfold processHead at h
  rw [hqeq] at h
  dsimp only at h
  cases hx : mapFind x s.mapInvRequests with
  | none =>
    rw [hx] at h
    injection h with h1
    injection h1 with hA hB
    subst hA
    subst hB
    have hevq : ∀ e ∈ [Ev.retire x], quiet e = true := by
      intro e he
      rw [List.mem_singleton] at he
      subst he
      rfl
    constructor
    · constructor
      · exact hrest_sorted
      · exact hrest_nodup
      · intro z rz hz
        obtain ⟨dz, hcz, hmz⟩ := hS.cursor_acc z rz hz
        rw [hqeq] at hmz
        rcases List.mem_cons.mp hmz with heq | hin
        · injection heq with h1 h2
          subst h2
          rw [hx] at hz
          cases hz
        · exact ⟨dz, hcz, hin⟩
      · intro dz z hmz
        have : (dz, z) ∈ s.invRequestsWorkQueue := by
          rw [hqeq]
          exact List.mem_cons_of_mem _ hmz
        exact hS.entry_row dz z this
      · exact hS.nodes_reg
      · exact hS.ask_reg
      · exact hS.untried_sub
      · exact hS.nodes_sorted
      · exact hS.untried_sorted
      · exact hS.ask_sorted
    · constructor
      · intro z
        unfold OutSpec
        by_cases hzx : z = x
        · subst hzx
          rw [outstanding_append, List.foldl_cons, List.foldl_nil]
          rw [show outStep z (outstanding tr z) (Ev.retire z) = none by simp [outStep]]
          intro rz hrz
          rw [hx] at hrz
          cases hrz
        · rw [outstanding_append, List.foldl_cons, List.foldl_nil,
            outStep_retire_other z x _ (fun hh => hzx hh.symm)]
          have hg := hT.ghost z
          unfold OutSpec at hg
          exact hg
      · intro z p hp
        rw [fetchPeers_quiet tr _ z hevq] at hp
        rw [annPeers_quiet tr _ z hevq]
        exact hT.fetch_ann z p hp
      · intro z rz hz p hp
        rw [annPeers_quiet tr _ z hevq]
        exact hT.untried_ann z rz hz p hp
      · intro z
        by_cases hzx : z = x
        · subst hzx
          rw [unanswered_append, List.foldl_cons, List.foldl_nil]
          rw [show unStep z (unanswered tr z) (Ev.retire z) = [] by simp [unStep]]
          simp
        · rw [unanswered_append, List.foldl_cons, List.foldl_nil,
            unStep_retire_other z x _ (fun hh => hzx hh.symm)]
          exact hT.unans z
  | some r =>
    rw [hx] at h
    dsimp only at h
    cases huntried : r.notRequestedFrom with
    | nil =>
      rw [huntried] at h
      dsimp only at h
      unfold Forget at h
      dsimp only at h
      cases hloop : forgetLoop x r.nodes
          (mapSet x { r with workQueueIter := none } s.mapInvRequests
            |> fun _ => s.mapNodeAskForState) with
      | none =>
        rw [show forgetLoop x ({ r with workQueueIter := none } : CInvState).nodes
            s.mapNodeAskForState = none from hloop] at h
        cases h
      | some m2 =>
        rw [show forgetLoop x ({ r with workQueueIter := none } : CInvState).nodes
            s.mapNodeAskForState = some m2 from hloop] at h
        dsimp only at h
        injection h with h1
        injection h1 with hA hB
        subst hA
        subst hB
        have hdq : (d, x) ∈ s.invRequestsWorkQueue := by
          rw [hqeq]
          exact List.mem_cons_self _ _
        have hloop2 : forgetLoop x r.nodes s.mapNodeAskForState = some m2 := hloop
        have hres := inv_forget_like T x d s tr r m2 [Ev.retire x, Ev.retire x]
          hS hT hx hloop2 hdq
          (by
            intro e he
            rcases List.mem_cons.mp he with rfl | he2
            · rfl
            · rw [List.mem_singleton] at he2
              exact he2)
          (by simp)
        simp only [List.tail_cons]
        rw [mapErase_mapSet]
        rw [show rest = wqEraseEntry d x s.invRequestsWorkQueue by
          rw [hqeq, wqEraseEntry, List.erase_cons_head]]
        exact hres
    | cons p ps =>
      rw [huntried] at h
      dsimp only at h
      cases hp : mapFind p s.mapNodeAskForState with
      | none =>
        rw [hp] at h
        cases h
      | some stp =>
        rw [hp] at h
        dsimp only at h
        by_cases hnode : stp.node = 0
        · rw [if_pos hnode] at h
          cases h
        · rw [if_neg hnode] at h
          injection h with h1
          injection h1 with hA hB
          subst hA
          subst hB
          set r2 : CInvState :=
            { r with notRequestedFrom := ps, beingRequestedFrom := p,
                     workQueueIter := some (now + T) } with hr2
          have hqins : wqInsert (now + T) x ((d, x) :: rest) =
              (d, x) :: wqInsert (now + T) x rest :=
            wqInsert_cons_le (now + T) x d x rest (le_trans hdle (Nat.le_add_right now T))
          have hfindR : ∀ z : Nat, mapFind z (mapSet x r2 s.mapInvRequests) =
              if z = x then some r2 else mapFind z s.mapInvRequests := by
            intro z
            by_cases hz : z = x
            · subst hz
              rw [mapFind_mapSet_self, hx]
              simp
            · rw [mapFind_mapSet_other x z r2 _ hz, if_neg hz]
          have hpnodes : p ∈ r.nodes := by
            refine hS.untried_sub x r hx p ?_
            rw [huntried]
            exact List.mem_cons_self _ _
          have hpps : p ∉ ps := by
            have hsorted := hS.untried_sorted x r hx
            rw [huntried] at hsorted
            intro hcon
            have := (List.pairwise_cons.mp hsorted).1 p hcon
            omega
          have hevs2 : [Ev.retire x, Ev.fetch p stp.node x now] =
              [Ev.retire x] ++ [Ev.fetch p stp.node x now] := rfl
          constructor
          · constructor
            · rw [hqins]
              simp only [List.tail_cons]
              exact wqInsert_sorted (now + T) x rest hrest_sorted
            · rw [hqins]
              simp only [List.tail_cons]
              have hperm := wqInsert_snd_perm (now + T) x rest
              rw [List.Perm.nodup_iff hperm]
              exact List.nodup_cons.mpr ⟨hxrest, hrest_nodup⟩
            · intro z rz hz
              rw [hfindR z] at hz
              rw [hqins]
              simp only [List.tail_cons]
              by_cases hzx : z = x
              · subst hzx
                rw [if_pos rfl] at hz
                cases hz
                exact ⟨now + T, rfl, (mem_wqInsert _ _ _ _).mpr (Or.inl rfl)⟩
              · rw [if_neg hzx] at hz
                obtain ⟨dz, hcz, hmz⟩ := hS.cursor_acc z rz hz
                rw [hqeq] at hmz
                rcases List.mem_cons.mp hmz with heq | hin
                · injection heq with h1 h2
                  exact absurd h2 hzx
                · exact ⟨dz, hcz, (mem_wqInsert _ _ _ _).mpr (Or.inr hin)⟩
            · intro dz z hmz
              rw [hqins] at hmz
              simp only [List.tail_cons] at hmz
              rcases (mem_wqInsert _ _ _ _).mp hmz with heq | hin
              · injection heq with h1 h2
                subst h1
                subst h2
                exact ⟨r2, by rw [hfindR z]; simp, rfl⟩
              · have hzx : z ≠ x := by
                  intro hh
                  subst hh
                  exact hxrest_pair dz hin
                obtain ⟨rz, hrz, hcz⟩ := hS.entry_row dz z (by
                  rw [hqeq]
                  exact List.mem_cons_of_mem _ hin)
                exact ⟨rz, by rw [hfindR z, if_neg hzx]; exact hrz, hcz⟩
            · intro z rz hz m hm
              rw [hfindR z] at hz
              by_cases hzx : z = x
              · subst hzx
                rw [if_pos rfl] at hz
                cases hz
                exact hS.nodes_reg z r hx m hm
              · rw [if_neg hzx] at hz
                exact hS.nodes_reg z rz hz m hm
            · intro m stm hstm z hz
              obtain ⟨rz, hrz, hmem⟩ := hS.ask_reg m stm hstm z hz
              by_cases hzx : z = x
              · subst hzx
                rw [hx] at hrz
                cases hrz
                exact ⟨r2, by rw [hfindR z]; simp, hmem⟩
              · exact ⟨rz, by rw [hfindR z, if_neg hzx]; exact hrz, hmem⟩
            · intro z rz hz m hm
              rw [hfindR z] at hz
              by_cases hzx : z = x
              · subst hzx
                rw [if_pos rfl] at hz
                cases hz
                refine hS.untried_sub z r hx m ?_
                rw [huntried]
                exact List.mem_cons_of_mem _ hm
              · rw [if_neg hzx] at hz
                exact hS.untried_sub z rz hz m hm
            · intro z rz hz
              rw [hfindR z] at hz
              by_cases hzx : z = x
              · subst hzx
                rw [if_pos rfl] at hz
                cases hz
                exact hS.nodes_sorted z r hx
              · rw [if_neg hzx] at hz
                exact hS.nodes_sorted z rz hz
            · intro z rz hz
              rw [hfindR z] at hz
              by_cases hzx : z = x
              · subst hzx
                rw [if_pos rfl] at hz
                cases hz
                have hsorted := hS.untried_sorted z r hx
                rw [huntried] at hsorted
                exact (List.pairwise_cons.mp hsorted).2
              · rw [if_neg hzx] at hz
                exact hS.untried_sorted z rz hz
            · exact hS.ask_sorted
          · constructor
            · intro z
              unfold OutSpec
              by_cases hzx : z = x
              · subst hzx
                have hcomp : outstanding (tr ++ [Ev.retire z, Ev.fetch p stp.node z now]) z
                    = some (p, now) := by
                  rw [outstanding_append, List.foldl_cons, List.foldl_cons, List.foldl_nil]
                  rw [show outStep z (outstanding tr z) (Ev.retire z) = none by
                    simp [outStep]]
                  simp [outStep]
                rw [hcomp]
                exact ⟨r2, by rw [hfindR z]; simp, rfl, rfl, hpnodes, hpps⟩
              · rw [outstanding_append, List.foldl_cons, List.foldl_cons, List.foldl_nil,
                  outStep_retire_other z x _ (fun hh => hzx hh.symm),
                  outStep_fetch_other z p stp.node x now _ (fun hh => hzx hh.symm)]
                have hg := hT.ghost z
                unfold OutSpec at hg
                cases hout : outstanding tr z with
                | some pt =>
                  rw [hout] at hg
                  obtain ⟨rz, hrz, hcz, hbf, hmem', hnm'⟩ := hg
                  exact ⟨rz, by rw [hfindR z, if_neg hzx]; exact hrz, hcz, hbf, hmem', hnm'⟩
                | none =>
                  rw [hout] at hg
                  intro rz hrz
                  rw [hfindR z, if_neg hzx] at hrz
                  exact hg rz hrz
            · intro z q hq
              by_cases hzx : z = x
              · subst hzx
                rw [fetchPeers_append, List.foldl_cons, List.foldl_cons, List.foldl_nil] at hq
                rw [show fetchStep z (fetchPeers tr z) (Ev.retire z) = fetchPeers tr z
                  from rfl] at hq
                rw [show fetchStep z (fetchPeers tr z) (Ev.fetch p stp.node z now) =
                  insNew p (fetchPeers tr z) by simp [fetchStep]] at hq
                rw [annPeers_append, List.foldl_cons, List.foldl_cons, List.foldl_nil]
                rw [show annStep z (annPeers tr z) (Ev.retire z) = annPeers tr z from rfl]
                rw [show annStep z (annPeers tr z) (Ev.fetch p stp.node z now) =
                  annPeers tr z from rfl]
                rcases (mem_insNew p q _).mp hq with rfl | hq2
                · refine hT.untried_ann z r hx q ?_
                  rw [huntried]
                  exact List.mem_cons_self _ _
                · exact hT.fetch_ann z q hq2
              · rw [fetchPeers_append, List.foldl_cons, List.foldl_cons, List.foldl_nil] at hq
                rw [show fetchStep z (fetchPeers tr z) (Ev.retire x) = fetchPeers tr z
                  from rfl] at hq
                rw [show fetchStep z (fetchPeers tr z) (Ev.fetch p stp.node x now) =
                  fetchPeers tr z by
                    have hxz : ¬ x = z := fun hh => hzx hh.symm
                    simp [fetchStep, hxz]] at hq
                rw [annPeers_append, List.foldl_cons, List.foldl_cons, List.foldl_nil]
                rw [show annStep z (annPeers tr z) (Ev.retire x) = annPeers tr z from rfl]
                rw [show annStep z (annPeers tr z) (Ev.fetch p stp.node x now) =
                  annPeers tr z from rfl]
                exact hT.fetch_ann z q hq
            · intro z rz hz q hq
              rw [hfindR z] at hz
              rw [annPeers_append, List.foldl_cons, List.foldl_cons, List.foldl_nil]
              rw [show annStep z (annPeers tr z) (Ev.retire x) = annPeers tr z from rfl]
              rw [show annStep z (annPeers tr z) (Ev.fetch p stp.node x now) =
                annPeers tr z from rfl]
              by_cases hzx : z = x
              · subst hzx
                rw [if_pos rfl] at hz
                cases hz
                refine hT.untried_ann z r hx q ?_
                rw [huntried]
                exact List.mem_cons_of_mem _ hq
              · rw [if_neg hzx] at hz
                exact hT.untried_ann z rz hz q hq
            · intro z
              by_cases hzx : z = x
              · subst hzx
                rw [unanswered_append, List.foldl_cons, List.foldl_cons, List.foldl_nil]
                rw [show unStep z (unanswered tr z) (Ev.retire z) = [] by simp [unStep]]
                rw [show unStep z ([] : List Nat) (Ev.fetch p stp.node z now) = [p] by
                  simp [unStep, insNew]]
                simp
              · rw [unanswered_append, List.foldl_cons, List.foldl_cons, List.foldl_nil,
                  unStep_retire_other z x _ (fun hh => hzx hh.symm),
                  unStep_fetch_other z p stp.node x now _ (fun hh => hzx hh.symm)]
                exact hT.unans z

theorem inv_workerRun (T now fuel : Nat) (s s2 : SchedState)
    (tr evs : List Ev) (hS : SInv s) (hT : TInv T s tr)
    (h : workerRun T now fuel s = some (s2, evs)) :
    SInv s2 ∧ TInv T s2 (tr ++ evs) := by
  induction fuel generalizing s s2 tr evs with
  | zero =>
    unfold workerRun at h
    injection h with h1
    injection h1 with hA hB
    subst hA
    subst hB
    rw [List.append_nil]
    exact ⟨hS, hT⟩
  | succ fuel ih =>
    unfold workerRun at h
    cases hq : s.invRequestsWorkQueue with
    | nil =>
      rw [hq] at h
      injection h with h1
      injection h1 with hA hB
      subst hA
      subst hB
      rw [List.append_nil]
      exact ⟨hS, hT⟩
    | cons e rest =>
      obtain ⟨d, x⟩ := e
      rw [hq] at h
      dsimp only at h
      by_cases hd : d ≤ now
      · rw [if_pos hd] at h
        cases hph : processHead T now s with
        | none =>
          rw [hph] at h
          cases h
        | some p1 =>
          obtain ⟨s1, e1⟩ := p1
          rw [hph] at h
          dsimp only at h
          cases hwr : workerRun T now fuel s1 with
          | none =>
            rw [hwr] at h
            cases h
          | some p2 =>
            obtain ⟨s3, e2⟩ := p2
            rw [hwr] at h
            injection h with h1
            injection h1 with hA hB
            subst hA
            subst hB
            have hstep := inv_processHead T now d x rest s s1 tr e1 hq hd hS hT hph
            have hrec := ih s1 s3 (tr ++ e1) e2 hstep.1 hstep.2 hwr
            rw [List.append_assoc] at hrec
            exact hrec
      · rw [if_neg hd] at h
        injection h with h1
        injection h1 with hA hB
        subst hA
        subst hB
        rw [List.append_nil]
        exact ⟨hS, hT⟩

theorem inv_workerPass (T now : Nat) (s s2 : SchedState) (tr evs : List Ev)
    (hS : SInv s) (hT : TInv T s tr)
    (h : workerPass T now s = some (s2, evs)) :
    SInv s2 ∧ TInv T s2 (tr ++ evs) :=
  inv_workerRun T now s.invRequestsWorkQueue.length s s2 tr evs hS hT h

theorem sinv_initState : SInv initState := by
  constructor
  · exact List.Pairwise.nil
  · simp [initState]
  · intro x r hr
    exact absurd hr (by simp [initState, mapFind])
  · intro d x hm
    cases hm
  · intro x r hr
    exact absurd hr (by simp [initState, mapFind])
  · intro n st hn
    exact absurd hn (by simp [initState, mapFind])
  · intro x r hr
    exact absurd hr (by simp [initState, mapFind])
  · intro x r hr
    exact absurd hr (by simp [initState, mapFind])
  · intro x r hr
    exact absurd hr (by simp [initState, mapFind])
  · intro n st hn
    exact absurd hn (by simp [initState, mapFind])

theorem tinv_initState (T : Nat) : TInv T initState [] := by
  constructor
  · intro x
    unfold OutSpec
    rw [show outstanding [] x = none from rfl]
    intro r hr
    cases hr
  · intro x p hp
    cases hp
  · intro x r hr
    cases hr
  · intro x
    simp [unanswered]

/-- Every operation of the external interface preserves both invariants. -/
theorem inv_applyOp (T maxSz : Nat) (op : Op) (s s2 : SchedState)
    (tr evs : List Ev) (hS : SInv s) (hT : TInv T s tr)
    (h : applyOp T maxSz s op = some (s2, evs)) :
    SInv s2 ∧ TInv T s2 (tr ++ evs) := by
  cases op with
  | initNode n =>
    unfold applyOp at h
    injection h with h1
    injection h1 with hA hB
    subst hA
    subst hB
    rw [List.append_nil]
    exact inv_initNode T n s tr hS hT
  | finalizeNode n => exact inv_finalize T n s s2 tr evs hS hT h
  | askFor n h0 x => exact inv_askFor T maxSz n h0 x s s2 tr evs hS hT h
  | completed x => exact inv_completed T x s s2 tr evs hS hT h
  | worker now => exact inv_workerPass T now s s2 tr evs hS hT h

theorem inv_runOps (T maxSz : Nat) (ops : List Op) (s s2 : SchedState)
    (tr evs : List Ev) (hS : SInv s) (hT : TInv T s tr)
    (h : runOps T maxSz ops s = some (s2, evs)) :
    SInv s2 ∧ TInv T s2 (tr ++ evs) := by
  induction ops generalizing s s2 tr evs with
  | nil =>
    unfold runOps at h
    injection h with h1
    injection h1 with hA hB
    subst hA
    subst hB
    rw [List.append_nil]
    exact ⟨hS, hT⟩
  | cons op ops ih =>
    unfold runOps at h
    cases hop : applyOp T maxSz s op with
    | none =>
      rw [hop] at h
      cases h
    | some p1 =>
      obtain ⟨s1, e1⟩ := p1
      rw [hop] at h
      dsimp only at h
      cases hrec : runOps T maxSz ops s1 with
      | none =>
        rw [hrec] at h
        cases h
      | some p2 =>
        obtain ⟨s3, e2⟩ := p2
        rw [hrec] at h
        injection h with h1
        injection h1 with hA hB
        subst hA
        subst hB
        have hstep := inv_applyOp T maxSz op s s1 tr e1 hS hT hop
        have hrest := ih s1 s3 (tr ++ e1) e2 hstep.1 hstep.2 hrec
        rw [List.append_assoc] at hrest
        exact hrest

/-- Master invariant theorem: every completed run from the initial state
    satisfies both the state invariant and the trace invariant. -/
theorem run_inv (T maxSz : Nat) (ops : List Op) (s : SchedState) (tr : List Ev)
    (h : run T maxSz ops = some (s, tr)) : SInv s ∧ TInv T s tr := by
  have := inv_runOps T maxSz ops initState s [] tr sinv_initState
    (tinv_initState T) h
  rw [List.nil_append] at this
  exact this

/-! ### Helpers for the claim theorems -/

theorem insSorted_idem (a : Nat) (l : List Nat) :
    insSorted a (insSorted a l) = insSorted a l := by
  induction l with
  | nil => simp [insSorted]
  | cons b l ih =>
    by_cases h1 : a < b
    · rw [show insSorted a (b :: l) = a :: b :: l by simp [insSorted, h1]]
      simp [insSorted]
    · by_cases h2 : a = b
      · rw [show insSorted a (b :: l) = b :: l by simp [insSorted, h1, h2]]
        simp [insSorted, h1, h2]
      · rw [show insSorted a (b :: l) = b :: insSorted a l by simp [insSorted, h1, h2]]
        rw [show insSorted a (b :: insSorted a l) = b :: insSorted a (insSorted a l) by
          simp [insSorted, h1, h2]]
        rw [ih]

theorem forgetLoop_total (inv : Nat) (ns : List Nat)
    (m : List (Nat × CNodeAskForState))
    (h : ∀ n ∈ ns, ∃ st, mapFind n m = some st) :
    ∃ m2, forgetLoop inv ns m = some m2 := by
  induction ns generalizing m with
  | nil => exact ⟨m, rfl⟩
  | cons n ns ih =>
    obtain ⟨st, hst⟩ := h n (List.mem_cons_self n ns)
    unfold forgetLoop
    rw [hst]
    refine ih _ ?_
    intro k hk
    by_cases hkn : k = n
    · subst hkn
      rw [mapFind_mapSet_self, hst]
      exact ⟨_, rfl⟩
    · rw [mapFind_mapSet_other n k _ m hkn]
      exact h k (List.mem_cons_of_mem n hk)

theorem finStep_rows (n y : Nat) (s : SchedState) :
    ∀ z, mapFind z (finStep n s y).1.mapInvRequests =
      if z = y then (mapFind y s.mapInvRequests).map (finTf n)
      else mapFind z s.mapInvRequests := by
  intro z
  unfold finStep
  cases hy : mapFind y s.mapInvRequests with
  | none =>
    by_cases hz : z = y
    · subst hz
      simp [hy]
    · simp [hz]
  | some r =>
    dsimp only
    by_cases hb : r.beingRequestedFrom = n
    · rw [if_pos hb]
      dsimp only
      by_cases hz : z = y
      · subst hz
        rw [mapFind_mapSet_self, hy, if_pos rfl]
        simp [finTf, hb]
      · rw [mapFind_mapSet_other y z _ _ hz, if_neg hz]
    · rw [if_neg hb]
      dsimp only
      by_cases hz : z = y
      · subst hz
        rw [mapFind_mapSet_self, hy, if_pos rfl]
        simp [finTf, hb]
      · rw [mapFind_mapSet_other y z _ _ hz, if_neg hz]

theorem finLoop_rows (n : Nat) (pending : List Nat) (s : SchedState)
    (hnd : pending.Nodup) :
    ∀ z, mapFind z (finLoop n pending s).1.mapInvRequests =
      if z ∈ pending then (mapFind z s.mapInvRequests).map (finTf n)
      else mapFind z s.mapInvRequests := by
  induction pending generalizing s with
  | nil =>
    intro z
    rw [show finLoop n [] s = (s, []) from rfl, if_neg (List.not_mem_nil z)]
  | cons y pending ih =>
    intro z
    have hynp : y ∉ pending := (List.nodup_cons.mp hnd).1
    have hih := ih (finStep n s y).1 (List.nodup_cons.mp hnd).2 z
    unfold finLoop
    dsimp only
    rw [hih, finStep_rows n y s z]
    by_cases hzy : z = y
    · subst hzy
      rw [if_neg (fun hh => hynp hh), if_pos (List.mem_cons_self z pending),
        if_pos rfl]
    · rw [if_neg hzy]
      by_cases hzp : z ∈ pending
      · rw [if_pos hzp, if_pos (List.mem_cons_of_mem y hzp)]
      · rw [if_neg hzp, if_neg (by
          intro hh
          rcases List.mem_cons.mp hh with hh1 | hh2
          · exact hzy hh1
          · exact hzp hh2)]

theorem finLoop_evs_inflight (n : Nat) (pending : List Nat) (s : SchedState)
    (hnd : pending.Nodup) (y : Nat) (r : CInvState)
    (hy : y ∈ pending) (hr : mapFind y s.mapInvRequests = some r)
    (hb : r.beingRequestedFrom = n) :
    Ev.notify ∈ (finLoop n pending s).2 := by
  induction pending generalizing s with
  | nil => cases hy
  | cons z pending ih =>
    unfold finLoop
    dsimp only
    rw [List.mem_append]
    by_cases hyz : y = z
    · subst hyz
      left
      unfold finStep
      rw [hr]
      dsimp only
      rw [if_pos hb]
      dsimp only
      exact List.mem_cons_of_mem _ (List.mem_cons_self _ _)
    · right
      have hyp : y ∈ pending := by
        rcases List.mem_cons.mp hy with hh | hh
        · exact absurd hh hyz
        · exact hh
      have hr1 : mapFind y (finStep n s z).1.mapInvRequests = some r := by
        rw [finStep_rows n z s y, if_neg hyz]
        exact hr
      exact ih (finStep n s z).1 (List.nodup_cons.mp hnd).2 hyp hr1

/-! ### Claim C1 -/

/-- C1 (counterexample): with `MAX_SETASKFOR_SZ = 2`, after `connect(1)` and
announces of items 10, 11, 12 by peer 1, all three items are in peer 1's
`setAskFor`, and item 12 has a request row and a work-queue entry.  The
source's bound check `size() > MAX_SETASKFOR_SZ` is strict, so an announce
arriving with the set at exactly `MAX_SETASKFOR_SZ` elements is still
accepted — contradicting the claim that an announce is a silent no-op as
soon as the set has at least `MAX_SETASKFOR_SZ` elements, and its concrete
consequence that only the first two items survive. -/
theorem claim1_counterexample : c1check = true := by decide

/-- C1 (amended): an announce by a registered peer is a silent no-op, apart
from rebinding the peer's outbound handle, exactly when the peer's
`setAskFor` holds strictly more than `MAX_SETASKFOR_SZ` items; with the set
at `MAX_SETASKFOR_SZ` elements or fewer the announce is accepted: the item
enters the peer's set and obtains a request row listing the peer.  In
particular with `MAX_SETASKFOR_SZ = 2` the announces of a, b and c are all
accepted and only a fourth distinct announce is dropped. -/
theorem claim1_bound_strict (maxSz n h0 x : Nat) (s : SchedState)
    (st0 : CNodeAskForState)
    (hn : mapFind n s.mapNodeAskForState = some st0) :
    (st0.setAskFor.length > maxSz →
      ∃ s1, AskFor maxSz n h0 x s = some (s1, [Ev.ann n x]) ∧
        s1.mapInvRequests = s.mapInvRequests ∧
        s1.invRequestsWorkQueue = s.invRequestsWorkQueue ∧
        mapFind n s1.mapNodeAskForState = some { st0 with node := h0 }) ∧
    (st0.setAskFor.length ≤ maxSz →
      ∃ s1 evs, AskFor maxSz n h0 x s = some (s1, evs) ∧
        (∃ st1, mapFind n s1.mapNodeAskForState = some st1 ∧ x ∈ st1.setAskFor) ∧
        (∃ r1, mapFind x s1.mapInvRequests = some r1 ∧ n ∈ r1.nodes)) := by
  constructor
  · intro hlen
    refine ⟨_, AskFor_eq_over maxSz n h0 x s st0 hn hlen, rfl, rfl, ?_⟩
    rw [mapFind_mapSet_self, hn]
    rfl
  · intro hlen
    have hlen2 : ¬ st0.setAskFor.length > maxSz := by omega
    cases hx : mapFind x s.mapInvRequests with
    | none =>
      refine ⟨_, _, AskFor_eq_fresh maxSz n h0 x s st0 hn hlen2 hx, ?_, ?_⟩
      · refine ⟨{ st0 with node := h0, setAskFor := insSorted x st0.setAskFor },
          ?_, self_mem_insSorted x st0.setAskFor⟩
        rw [mapSet_mapSet_self, mapFind_mapSet_self, hn]
        rfl
      · refine ⟨_, mapFind_mapInsertIfAbsent_self x _ _ hx, ?_⟩
        exact List.mem_singleton.mpr rfl
    | some r =>
      refine ⟨_, _, AskFor_eq_exist maxSz n h0 x s st0 r hn hlen2 hx, ?_, ?_⟩
      · refine ⟨{ st0 with node := h0, setAskFor := insSorted x st0.setAskFor },
          ?_, self_mem_insSorted x st0.setAskFor⟩
        rw [mapSet_mapSet_self, mapFind_mapSet_self, hn]
        rfl
      · refine ⟨{ r with
                    nodes := insSorted n r.nodes,
                    notRequestedFrom :=
                      if n ∈ r.nodes then r.notRequestedFrom
                      else insSorted n r.notRequestedFrom }, ?_, ?_⟩
        · rw [mapFind_mapSet_self, hx]
          rfl
        · exact self_mem_insSorted n r.nodes

/-- Witness for C1 (amended): peer 1 already holds three items with
    `MAX_SETASKFOR_SZ = 2`, so a fourth announce is accepted by the theorem's
    first branch as a handle-rebinding no-op. -/
theorem claim1_witness : (AskFor 2 1 9 13 c1s).isSome = true := by
  obtain ⟨s1, heq, _⟩ :=
    (claim1_bound_strict 2 1 9 13 c1s ⟨[10, 11, 12], 7⟩ (by decide)).1 (by decide)
  rw [heq]
  rfl

/-! ### Claim C2 -/

/-- C2: at any lock release of any reachable execution, at most one peer has
an unanswered fetch for any given item: every fetch is issued only by the
worker when it pops the item's work-queue entry, which is the retry deadline
retiring the previous attempt, so the set of unanswered, unretired fetch
attempts for an item never exceeds one element. -/
theorem claim2_at_most_one_outstanding (T maxSz : Nat) (ops : List Op)
    (s : SchedState) (tr : List Ev) (x : Nat)
    (h : run T maxSz ops = some (s, tr)) :
    (unanswered tr x).length ≤ 1 :=
  (run_inv T maxSz ops s tr h).2.unans x

/-- Witness for C2 at the concrete `c2ops` run. -/
theorem claim2_witness : (unanswered c2tr 5).length ≤ 1 :=
  claim2_at_most_one_outstanding 60000000 10 c2ops c2s c2tr 5 (by decide)

/-! ### Claim C3 -/

/-- C3 (counterexample): the work queue is a `std::multimap` keyed only by
due time, so after announcing item 2 and then item 1 (both due 0) the queue
holds `[(0, 2), (0, 1)]` — not sorted by `(due_time, Inv)` — and one worker
pass at a fixed `now` fetches item 2 before item 1, i.e. equal due times are
processed in insertion order, not in ascending item order. -/
theorem claim3_counterexample : c3check = true ∧ c3fetchOrder = [2, 1] := by
  constructor
  · decide
  · decide

/-- C3 (amended): on every lock release of every reachable execution the
work queue is sorted by due time alone (ties keep insertion order, as
`std::multimap::insert` places equal keys at the upper bound), and each item
has at most one entry; the worker always pops the front, so within one pass
due entries are processed in ascending due-time order, ties in insertion
order. -/
theorem claim3_queue_sorted_unique (T maxSz : Nat) (ops : List Op)
    (s : SchedState) (tr : List Ev) (h : run T maxSz ops = some (s, tr)) :
    s.invRequestsWorkQueue.Pairwise (fun a b => a.1 ≤ b.1) ∧
    (s.invRequestsWorkQueue.map Prod.snd).Nodup := by
  obtain ⟨hS, _⟩ := run_inv T maxSz ops s tr h
  exact ⟨hS.wq_sorted, hS.wq_nodup⟩

/-- Witness for C3 (amended) at the concrete `c3ops` run. -/
theorem claim3_witness :
    c3s.invRequestsWorkQueue.Pairwise (fun a b => a.1 ≤ b.1) ∧
    (c3s.invRequestsWorkQueue.map Prod.snd).Nodup :=
  claim3_queue_sorted_unique 60000000 10 c3ops c3s c3tr (by decide)

/-! ### Claim C6 -/

/-- C6 (counterexample): after the worker selects peer 1 for item 5
(removing it from `untried`), a disconnect of peer 1 followed by a reconnect
reusing `PeerId` 1 and a re-announce re-inserts peer 1 into the item's
`untried` set, and the next worker pass fetches item 5 from peer 1 a second
time — so a selection-removed peer is not "never re-inserted", and a
candidate peer id can be tried more than once per item. -/
theorem claim6_counterexample : c6check = true := by decide

/-- C6 (amended): re-insertion into `untried` is possible when the peer
disconnects and its id is reused by a reconnecting peer that re-announces
(or after the row is forgotten and re-created), so "tried at most once" does
not hold per peer id; what does hold historically is containment: for every
item, every peer id ever asked for it had announced it before, so the number
of distinct peer ids ever asked never exceeds the historical count of
distinct announcer ids. -/
theorem claim6_fetched_subset_announcers (T maxSz : Nat) (ops : List Op)
    (s : SchedState) (tr : List Ev) (x : Nat)
    (h : run T maxSz ops = some (s, tr)) :
    (∀ p, p ∈ fetchPeers tr x → p ∈ annPeers tr x) ∧
    (fetchPeers tr x).length ≤ (annPeers tr x).length := by
  obtain ⟨_, hT⟩ := run_inv T maxSz ops s tr h
  refine ⟨hT.fetch_ann x, ?_⟩
  have hsub : fetchPeers tr x ⊆ annPeers tr x := fun p hp => hT.fetch_ann x p hp
  exact ((fetchPeers_nodup tr x).subperm hsub).length_le

/-- Witness for C6 (amended) at the concrete `c6ops` run. -/
theorem claim6_witness :
    (∀ p, p ∈ fetchPeers c6tr 5 → p ∈ annPeers c6tr 5) ∧
    (fetchPeers c6tr 5).length ≤ (annPeers c6tr 5).length :=
  claim6_fetched_subset_announcers 60000000 10 c6ops c6s c6tr 5 (by decide)

/-! ### Claim C8 -/

/-- C8 (counterexample): after the disconnect of the in-flight peer, item 5
has the queue entry `(0, 5)` although it has already been tried (the trace
contains a fetch of item 5) and no in-flight fetch is outstanding — both
disjuncts of I4 as stated fail, so I4 does not hold on every lock release. -/
theorem claim8_counterexample :
    run 60000000 10 c8ops = some (c8s, c8tr) ∧ ¬ claimI4 60000000 c8s c8tr := by
  constructor
  · decide
  · unfold claimI4
    decide

/-- C8 (amended): on every lock release of every reachable execution, an
item has a request row iff it has a work-queue entry; when a fetch of the
item is outstanding, the row's cursor and the entry sit at the fetch's issue
time plus `REQUEST_TIMEOUT` and `beingRequestedFrom` records the fetched
peer; when no fetch is outstanding — never tried, or the in-flight peer
disconnected, with the trade that `beingRequestedFrom = 0` then — the entry
is due at 0. -/
theorem claim8_amended_entry_iff_row (T maxSz : Nat) (ops : List Op)
    (s : SchedState) (tr : List Ev) (x : Nat)
    (h : run T maxSz ops = some (s, tr)) :
    ((∃ r, mapFind x s.mapInvRequests = some r) ↔
      ∃ d, (d, x) ∈ s.invRequestsWorkQueue) ∧
    (∀ r, mapFind x s.mapInvRequests = some r →
      match outstanding tr x with
      | some pt => r.beingRequestedFrom = pt.1 ∧
          r.workQueueIter = some (pt.2 + T) ∧
          (pt.2 + T, x) ∈ s.invRequestsWorkQueue
      | none => r.workQueueIter = some 0 ∧ (0, x) ∈ s.invRequestsWorkQueue) := by
  obtain ⟨hS, hT⟩ := run_inv T maxSz ops s tr h
  constructor
  · constructor
    · rintro ⟨r, hr⟩
      obtain ⟨d, _, hm⟩ := hS.cursor_acc x r hr
      exact ⟨d, hm⟩
    · rintro ⟨d, hd⟩
      obtain ⟨r, hr, _⟩ := hS.entry_row d x hd
      exact ⟨r, hr⟩
  · intro r hr
    have hg := hT.ghost x
    unfold OutSpec at hg
    cases hout : outstanding tr x with
    | some pt =>
      rw [hout] at hg
      obtain ⟨r2, hr2, hc, hb, _, _⟩ := hg
      rw [hr] at hr2
      injection hr2 with hr2
      subst hr2
      obtain ⟨d, hd, hm⟩ := hS.cursor_acc x r hr
      rw [hc] at hd
      injection hd with hd
      subst hd
      exact ⟨hb, hc, hm⟩
    | none =>
      rw [hout] at hg
      have hc := hg r hr
      obtain ⟨d, hd, hm⟩ := hS.cursor_acc x r hr
      rw [hc] at hd
      injection hd with hd
      subst hd
      exact ⟨hc, hm⟩

/-- Witness for C8 (amended) at the `c2ops` scenario state, whose item 5 is
    in flight to peer 1 since time 1. -/
theorem claim8_witness :
    ((∃ r, mapFind 5 c2s.mapInvRequests = some r) ↔
      ∃ d, (d, 5) ∈ c2s.invRequestsWorkQueue) ∧
    (∀ r, mapFind 5 c2s.mapInvRequests = some r →
      match outstanding c2tr 5 with
      | some pt => r.beingRequestedFrom = pt.1 ∧
          r.workQueueIter = some (pt.2 + 60000000) ∧
          (pt.2 + 60000000, 5) ∈ c2s.invRequestsWorkQueue
      | none => r.workQueueIter = some 0 ∧ (0, 5) ∈ c2s.invRequestsWorkQueue) :=
  claim8_amended_entry_iff_row 60000000 10 c2ops c2s c2tr 5 (by decide)

/-! ### Claim C5 -/

/-- C5: `complete(x); complete(x)` is equivalent to `complete(x)` on every
reachable state: the first `Completed` removes every reference to `x` — the
request row, the work-queue entry, and `x` in every peer's `setAskFor` — and
a second `Completed` for the now-unknown item returns the same state
unchanged with no effects. -/
theorem claim5_complete_idempotent (T maxSz : Nat) (ops : List Op)
    (s : SchedState) (tr : List Ev) (x : Nat) (s1 : SchedState) (evs : List Ev)
    (hrun : run T maxSz ops = some (s, tr))
    (h : Completed x s = some (s1, evs)) :
    mapFind x s1.mapInvRequests = none ∧
    (∀ e ∈ s1.invRequestsWorkQueue, e.2 ≠ x) ∧
    (∀ m st, mapFind m s1.mapNodeAskForState = some st → x ∉ st.setAskFor) ∧
    Completed x s1 = some (s1, []) := by
  obtain ⟨hS, hT⟩ := run_inv T maxSz ops s tr hrun
  unfold Completed at h
  cases hx : mapFind x s.mapInvRequests with
  | none =>
    rw [hx] at h
    injection h with h1
    injection h1 with hA hB
    subst hA
    subst hB
    refine ⟨hx, ?_, ?_, ?_⟩
    · intro e he hex
      obtain ⟨de, xe⟩ := e
      obtain ⟨r, hr, _⟩ := hS.entry_row de xe he
      simp only at hex
      rw [hex, hx] at hr
      cases hr
    · intro m st hm hmem
      obtain ⟨r, hr, _⟩ := hS.ask_reg m st hm x hmem
      rw [hx] at hr
      cases hr
    · unfold Completed
      rw [hx]
  | some r =>
    rw [hx] at h
    dsimp only at h
    unfold Forget at h
    cases hloop : forgetLoop x r.nodes s.mapNodeAskForState with
    | none =>
      rw [hloop] at h
      cases h
    | some m2 =>
      rw [hloop] at h
      obtain ⟨d, hc, hdq⟩ := hS.cursor_acc x r hx
      rw [hc] at h
      injection h with h1
      injection h1 with hA hB
      subst hA
      subst hB
      have hfindP2 := forgetLoop_find x r.nodes _ m2 hloop
        (pairwise_lt_nodup _ (hS.nodes_sorted x r hx))
      refine ⟨mapFind_mapErase_self x _, ?_, ?_, ?_⟩
      · intro e he hex
        obtain ⟨de, xe⟩ := e
        simp only at hex
        exact wqErase_unique_snd d x _ hS.wq_nodup hdq (de, xe) he hex
      · intro m st hm hmem
        rw [hfindP2 m] at hm
        by_cases hmr : m ∈ r.nodes
        · rw [if_pos hmr] at hm
          cases hstm0 : mapFind m s.mapNodeAskForState with
          | none =>
            rw [hstm0] at hm
            cases hm
          | some stm0 =>
            rw [hstm0] at hm
            injection hm with hm1
            subst hm1
            have hnd := pairwise_lt_nodup _ (hS.ask_sorted m stm0 hstm0)
            exact (hnd.mem_erase_iff.mp hmem).1 rfl
        · rw [if_neg hmr] at hm
          obtain ⟨r2, hr2, hmem2⟩ := hS.ask_reg m st hm x hmem
          rw [hx] at hr2
          injection hr2 with hr2
          subst hr2
          exact hmr hmem2
      · unfold Completed
        dsimp only
        rw [mapFind_mapErase_self x _]

/-- Witness for C5 at the concrete `c5ops` run. -/
theorem claim5_witness :
    mapFind 5 c5s1.mapInvRequests = none ∧
    (∀ e ∈ c5s1.invRequestsWorkQueue, e.2 ≠ 5) ∧
    (∀ m st, mapFind m c5s1.mapNodeAskForState = some st → 5 ∉ st.setAskFor) ∧
    Completed 5 c5s1 = some (c5s1, []) :=
  claim5_complete_idempotent 60000000 10 c5ops c5s c5tr 5 c5s1 [Ev.retire 5]
    (by decide) (by decide)

/-! ### Claim C4 -/

/-- C4: the three branches of a worker pop.  With the invariant in force and
a due head entry `(d, x)`: if `x` has no request row the worker just drops
the entry; if the row's `untried` is empty the worker forgets the request
(row gone, no queue entry for `x`, no peer holds `x` any more); otherwise it
pops the smallest peer id from `untried` (the head of the sorted list, below
every remaining candidate), records it as `beingRequestedFrom`, issues
`fetch(x)` through that peer's bound handle, and inserts the fresh entry
`(now + REQUEST_TIMEOUT, x)` whose position is recorded in the row's
cursor. -/
theorem claim4_worker_pop (T now d x : Nat) (rest : List (Nat × Nat))
    (s : SchedState) (hqeq : s.invRequestsWorkQueue = (d, x) :: rest)
    (hdle : d ≤ now) (hS : SInv s) :
    (mapFind x s.mapInvRequests = none →
      processHead T now s =
        some ({ s with invRequestsWorkQueue := rest }, [Ev.retire x])) ∧
    (∀ r, mapFind x s.mapInvRequests = some r → r.notRequestedFrom = [] →
      ∃ s1, processHead T now s = some (s1, [Ev.retire x, Ev.retire x]) ∧
        mapFind x s1.mapInvRequests = none ∧
        (∀ e ∈ s1.invRequestsWorkQueue, e.2 ≠ x) ∧
        (∀ m st, mapFind m s1.mapNodeAskForState = some st → x ∉ st.setAskFor)) ∧
    (∀ r p ps stp, mapFind x s.mapInvRequests = some r →
      r.notRequestedFrom = p :: ps →
      mapFind p s.mapNodeAskForState = some stp → stp.node ≠ 0 →
      (∀ q ∈ ps, p < q) ∧
      processHead T now s =
        some ({ s with
                  mapInvRequests := mapSet x
                    { r with notRequestedFrom := ps, beingRequestedFrom := p,
                             workQueueIter := some (now + T) } s.mapInvRequests,
                  invRequestsWorkQueue := wqInsert (now + T) x rest },
              [Ev.retire x, Ev.fetch p stp.node x now])) := by
  have hxrest_pair : ∀ dz : Nat, (dz, x) ∉ rest := by
    intro dz hdz
    have hwn := hS.wq_nodup
    rw [hqeq, List.map_cons] at hwn
    exact (List.nodup_cons.mp hwn).1 ((snd_mem_iff x rest).mpr ⟨dz, hdz⟩)
  refine ⟨?_, ?_, ?_⟩
  · intro hx
    unfold processHead
    rw [hqeq]
    dsimp only
    rw [hx]
  · intro r hx huntried
    have hdq : (d, x) ∈ s.invRequestsWorkQueue := by
      rw [hqeq]
      exact List.mem_cons_self _ _
    have htot : ∃ m2, forgetLoop x r.nodes s.mapNodeAskForState = some m2 := by
      refine forgetLoop_total x r.nodes _ ?_
      intro m hm
      obtain ⟨st, hst, _⟩ := hS.nodes_reg x r hx m hm
      exact ⟨st, hst⟩
    obtain ⟨m2, hloop⟩ := htot
    have hfindP2 := forgetLoop_find x r.nodes _ m2 hloop
      (pairwise_lt_nodup _ (hS.nodes_sorted x r hx))
    refine ⟨⟨m2, mapErase x s.mapInvRequests, rest⟩, ?_, ?_, ?_, ?_⟩
    · unfold processHead
      rw [hqeq]
      dsimp only
      rw [hx]
      dsimp only
      rw [huntried]
      dsimp only
      unfold Forget
      dsimp only
      rw [show forgetLoop x ({ r with workQueueIter := none } : CInvState).nodes
          s.mapNodeAskForState = some m2 from hloop]
      dsimp only
      rw [mapErase_mapSet]
      rfl
    · exact mapFind_mapErase_self x _
    · intro e he hex
      obtain ⟨de, xe⟩ := e
      simp only at hex
      subst hex
      exact hxrest_pair de he
    · intro m st hm hmem
      rw [hfindP2 m] at hm
      by_cases hmr : m ∈ r.nodes
      · rw [if_pos hmr] at hm
        cases hstm0 : mapFind m s.mapNodeAskForState with
        | none =>
          rw [hstm0] at hm
          cases hm
        | some stm0 =>
          rw [hstm0] at hm
          injection hm with hm1
          subst hm1
          have hnd := pairwise_lt_nodup _ (hS.ask_sorted m stm0 hstm0)
          exact (hnd.mem_erase_iff.mp hmem).1 rfl
      · rw [if_neg hmr] at hm
        obtain ⟨r2, hr2, hmem2⟩ := hS.ask_reg m st hm x hmem
        rw [hx] at hr2
        injection hr2 with hr2
        subst hr2
        exact hmr hmem2
  · intro r p ps stp hx huntried hp hnode
    constructor
    · intro q hq
      have hsorted := hS.untried_sorted x r hx
      rw [huntried] at hsorted
      exact (List.pairwise_cons.mp hsorted).1 q hq
    · unfold processHead
      rw [hqeq]
      dsimp only
      rw [hx]
      dsimp only
      rw [huntried]
      dsimp only
      rw [hp]
      dsimp only
      rw [if_neg hnode]
      rw [show wqInsert (now + T) x ((d, x) :: rest) =
          (d, x) :: wqInsert (now + T) x rest from
        wqInsert_cons_le (now + T) x d x rest
          (le_trans hdle (Nat.le_add_right now T))]
      rfl

/-- Witness for C4 at the concrete state `c4s`: the selection branch applies
    and the worker issues a fetch and requeues at `now + REQUEST_TIMEOUT`. -/
theorem claim4_witness :
    processHead 60000000 3 c4s =
      some (⟨[(1, ⟨[5], 7⟩)], [(5, ⟨[1], [], 1, some 60000003⟩)],
             [(60000003, 5)]⟩,
            [Ev.retire 5, Ev.fetch 1 7 5 3]) := by
  have hbranch := (claim4_worker_pop 60000000 3 0 5 [] c4s (by decide) (by decide)
    ((run_inv 60000000 10 c5ops c4s c5tr (by decide)).1)).2.2
  have h := (hbranch ⟨[1], [1], 0, some 0⟩ 1 [] ⟨[5], 7⟩ (by decide) (by decide)
    (by decide) (by decide)).2
  rw [h]
  rfl

/-! ### Claim C7 -/

/-- C7: `FinalizeNode n` on a reachable state, for every item in peer `n`'s
`setAskFor`, removes `n` from the item's `nodes` and `notRequestedFrom`; if
the item was in flight to `n` it also clears `beingRequestedFrom`, replaces
the item's queue entry by a single due-0 entry recorded in the cursor, and
notifies the worker's condition variable; rows of other items are untouched,
no request row is erased — even one whose candidate set became empty — and
the peer's own state is erased at the end. -/
theorem claim7_disconnect (T maxSz : Nat) (ops : List Op) (s : SchedState)
    (tr : List Ev) (n : Nat) (st : CNodeAskForState) (s1 : SchedState)
    (evs : List Ev)
    (hrun : run T maxSz ops = some (s, tr))
    (hn : mapFind n s.mapNodeAskForState = some st)
    (h : FinalizeNode n s = some (s1, evs)) :
    mapFind n s1.mapNodeAskForState = none ∧
    (∀ x r, mapFind x s.mapInvRequests = some r →
      ∃ r1, mapFind x s1.mapInvRequests = some r1 ∧
        (x ∈ st.setAskFor →
          r1.nodes = r.nodes.erase n ∧
          r1.notRequestedFrom = r.notRequestedFrom.erase n ∧
          (r.beingRequestedFrom = n →
            r1.beingRequestedFrom = 0 ∧ r1.workQueueIter = some 0 ∧
            (0, x) ∈ s1.invRequestsWorkQueue ∧
            (∀ e ∈ s1.invRequestsWorkQueue, e.2 = x → e = (0, x)) ∧
            Ev.notify ∈ evs) ∧
          (r.beingRequestedFrom ≠ n →
            r1.beingRequestedFrom = r.beingRequestedFrom ∧
            r1.workQueueIter = r.workQueueIter)) ∧
        (x ∉ st.setAskFor → r1 = r)) := by
  obtain ⟨hS, hT⟩ := run_inv T maxSz ops s tr hrun
  have hSfin := (inv_finalize T n s s1 tr evs hS hT h).1
  unfold FinalizeNode at h
  rw [hn] at h
  dsimp only at h
  injection h with h1
  injection h1 with hA hB
  have hnd : st.setAskFor.Nodup := pairwise_lt_nodup _ (hS.ask_sorted n st hn)
  have hrows := finLoop_rows n st.setAskFor s hnd
  constructor
  · rw [← hA]
    exact mapFind_mapErase_self n _
  · intro x r hx
    have hx1 : mapFind x s1.mapInvRequests =
        (if x ∈ st.setAskFor then (mapFind x s.mapInvRequests).map (finTf n)
         else mapFind x s.mapInvRequests) := by
      rw [← hA]
      exact hrows x
    by_cases hmem : x ∈ st.setAskFor
    · have hfind1 : mapFind x s1.mapInvRequests = some (finTf n r) := by
        rw [hx1, if_pos hmem, hx]
        rfl
      refine ⟨finTf n r, hfind1, ?_, ?_⟩
      · intro _
        refine ⟨?_, ?_, ?_, ?_⟩
        · unfold finTf
          by_cases hb : r.beingRequestedFrom = n <;> simp [hb]
        · unfold finTf
          by_cases hb : r.beingRequestedFrom = n <;> simp [hb]
        · intro hb
          have hr1 : finTf n r =
              ⟨r.nodes.erase n, r.notRequestedFrom.erase n, 0, some 0⟩ := by
            simp [finTf, hb]
          obtain ⟨d1, hcur, hm⟩ := hSfin.cursor_acc x (finTf n r) hfind1
          rw [hr1] at hcur
          injection hcur with hcur
          subst hcur
          refine ⟨by rw [hr1], by rw [hr1], hm, ?_, ?_⟩
          · intro e he hex
            have hinj := List.inj_on_of_nodup_map hSfin.wq_nodup
            exact hinj he hm hex
          · rw [← hB]
            exact finLoop_evs_inflight n st.setAskFor s hnd x r hmem hx hb
        · intro hb
          constructor
          · simp [finTf, hb]
          · simp [finTf, hb]
      · intro hcon
        exact absurd hmem hcon
    · refine ⟨r, ?_, ?_, ?_⟩
      · rw [hx1, if_neg hmem, hx]
      · intro hcon
        exact absurd hcon hmem
      · intro _
        rfl

/-- Witness for C7: disconnecting the in-flight peer 1 of the `c2ops`
    scenario erases its peer state. -/
theorem claim7_witness : mapFind 1 c7s1.mapNodeAskForState = none :=
  (claim7_disconnect 60000000 10 c2ops c2s c2tr 1 ⟨[5], 7⟩ c7s1
    [Ev.retireP 1 5, Ev.notify] (by decide) (by decide) (by decide)).1

/-! ### Claim C9 -/

/-- C9: announce is idempotent per (peer, handle, item): repeating
`AskFor` with the same peer, handle and item leaves the state of the first
call unchanged (for any starting state, including over-limit and fresh-row
cases), and a repeated announce by a peer already among the item's
candidates does not re-insert that peer into `notRequestedFrom`, so a peer
that was already tried does not regain eligibility by re-announcing. -/
theorem claim9_askFor_idempotent (maxSz n h0 x : Nat) (s : SchedState) :
    (∀ s1, askForState maxSz n h0 x s = some s1 →
      askForState maxSz n h0 x s1 = some s1) ∧
    (∀ r s1, mapFind x s.mapInvRequests = some r → n ∈ r.nodes →
      askForState maxSz n h0 x s = some s1 →
      ∃ r1, mapFind x s1.mapInvRequests = some r1 ∧
        r1.notRequestedFrom = r.notRequestedFrom) := by
  constructor
  · intro s1 h1
    unfold askForState at h1 ⊢
    cases hn : mapFind n s.mapNodeAskForState with
    | none =>
      unfold AskFor at h1
      rw [hn] at h1
      cases h1
    | some st0 =>
      by_cases hlen : st0.setAskFor.length > maxSz
      · rw [AskFor_eq_over maxSz n h0 x s st0 hn hlen] at h1
        simp only [Option.map] at h1
        injection h1 with h1
        subst h1
        have hfind1 : mapFind n
            (mapSet n { st0 with node := h0 } s.mapNodeAskForState) =
            some { st0 with node := h0 } := by
          rw [mapFind_mapSet_self, hn]
          rfl
        rw [AskFor_eq_over maxSz n h0 x _ { st0 with node := h0 } hfind1 hlen]
        simp only [Option.map]
        rw [mapSet_mapSet_self]
      · cases hx : mapFind x s.mapInvRequests with
        | none =>
          rw [AskFor_eq_fresh maxSz n h0 x s st0 hn hlen hx] at h1
          simp only [Option.map] at h1
          injection h1 with h1
          subst h1
          rw [mapSet_mapSet_self]
          have hfind1 : mapFind n
              (mapSet n { st0 with node := h0, setAskFor := insSorted x st0.setAskFor }
                s.mapNodeAskForState) =
              some { st0 with node := h0, setAskFor := insSorted x st0.setAskFor } := by
            rw [mapFind_mapSet_self, hn]
            rfl
          by_cases hlen1 :
              (insSorted x st0.setAskFor).length > maxSz
          · rw [AskFor_eq_over maxSz n h0 x _
              { st0 with node := h0, setAskFor := insSorted x st0.setAskFor }
              hfind1 hlen1]
            simp only [Option.map]
            rw [mapSet_mapSet_self]
          · have hfindx : mapFind x (mapInsertIfAbsent x
                ({ nodes := [n], notRequestedFrom := [n],
                   beingRequestedFrom := 0, workQueueIter := some 0 } : CInvState)
                s.mapInvRequests) =
                some { nodes := [n], notRequestedFrom := [n],
                       beingRequestedFrom := 0, workQueueIter := some 0 } :=
              mapFind_mapInsertIfAbsent_self x _ _ hx
            rw [AskFor_eq_exist maxSz n h0 x _
              { st0 with node := h0, setAskFor := insSorted x st0.setAskFor }
              { nodes := [n], notRequestedFrom := [n],
                beingRequestedFrom := 0, workQueueIter := some 0 }
              hfind1 hlen1 hfindx]
            simp only [Option.map]
            rw [mapSet_mapSet_self]
            rw [mapSet_mapSet_self]
            simp only [insSorted_idem]
            rw [show insSorted n [n] = [n] by simp [insSorted]]
            rw [if_pos (show n ∈ [n] from List.mem_singleton.mpr rfl)]
            rw [mapSet_find_self x _ _ hfindx]
        | some r =>
          rw [AskFor_eq_exist maxSz n h0 x s st0 r hn hlen hx] at h1
          simp only [Option.map] at h1
          injection h1 with h1
          subst h1
          rw [mapSet_mapSet_self]
          have hfind1 : mapFind n
              (mapSet n { st0 with node := h0, setAskFor := insSorted x st0.setAskFor }
                s.mapNodeAskForState) =
              some { st0 with node := h0, setAskFor := insSorted x st0.setAskFor } := by
            rw [mapFind_mapSet_self, hn]
            rfl
          by_cases hlen1 : (insSorted x st0.setAskFor).length > maxSz
          · rw [AskFor_eq_over maxSz n h0 x _
              { st0 with node := h0, setAskFor := insSorted x st0.setAskFor }
              hfind1 hlen1]
            simp only [Option.map]
            rw [mapSet_mapSet_self]
          · have hfindx : mapFind x (mapSet x
                { r with
                  nodes := insSorted n r.nodes,
                  notRequestedFrom :=
                    if n ∈ r.nodes then r.notRequestedFrom
                    else insSorted n r.notRequestedFrom }
                s.mapInvRequests) =
                some { r with
                       nodes := insSorted n r.nodes,
                       notRequestedFrom :=
                         if n ∈ r.nodes then r.notRequestedFrom
                         else insSorted n r.notRequestedFrom } := by
              rw [mapFind_mapSet_self, hx]
              rfl
            rw [AskFor_eq_exist maxSz n h0 x _
              { st0 with node := h0, setAskFor := insSorted x st0.setAskFor }
              { r with
                nodes := insSorted n r.nodes,
                notRequestedFrom :=
                  if n ∈ r.nodes then r.notRequestedFrom
                  else insSorted n r.notRequestedFrom }
              hfind1 hlen1 hfindx]
            simp only [Option.map]
            rw [mapSet_mapSet_self]
            rw [mapSet_mapSet_self]
            rw [mapSet_mapSet_self]
            simp only [insSorted_idem]
            rw [if_pos (self_mem_insSorted n r.nodes)]
  · intro r s1 hx hmem h1
    unfold askForState at h1
    cases hn : mapFind n s.mapNodeAskForState with
    | none =>
      unfold AskFor at h1
      rw [hn] at h1
      cases h1
    | some st0 =>
      by_cases hlen : st0.setAskFor.length > maxSz
      · rw [AskFor_eq_over maxSz n h0 x s st0 hn hlen] at h1
        simp only [Option.map] at h1
        injection h1 with h1
        subst h1
        exact ⟨r, hx, rfl⟩
      · rw [AskFor_eq_exist maxSz n h0 x s st0 r hn hlen hx] at h1
        simp only [Option.map] at h1
        injection h1 with h1
        subst h1
        refine ⟨{ r with
            nodes := insSorted n r.nodes,
            notRequestedFrom :=
              if n ∈ r.nodes then r.notRequestedFrom
              else insSorted n r.notRequestedFrom }, ?_, ?_⟩
        · rw [mapFind_mapSet_self, hx]
          rfl
        · simp only
          rw [if_pos hmem]

theorem claim9_witness :
    askForState 10 1 7 5 c9s1 = some c9s1 ∧
    (∃ r1, mapFind 5 c9s1.mapInvRequests = some r1 ∧
      r1.notRequestedFrom = c9r.notRequestedFrom) := by
  have h1 := (claim9_askFor_idempotent 10 1 7 5 c9s0).1 c9s1 (by rfl)
  exact ⟨h1,
    (claim9_askFor_idempotent 10 1 7 5 c9s1).2 c9r c9s1 (by rfl) (by decide) h1⟩

/-- C10: an announce rejected by the per-peer bound is not a complete no-op:
even when the peer's set is over `MAX_SETASKFOR_SZ`, `AskFor` first stores the
supplied handle into the peer's state (rebinding which connection later
fetches use) and only then returns; the request table, the work queue, and
every other peer's state — including the over-limit peer's item set — are
unchanged, and no queue notification or fetch is emitted. -/
theorem claim10_over_rebind (maxSz n h0 x : Nat) (s : SchedState)
    (st0 : CNodeAskForState)
    (hn : mapFind n s.mapNodeAskForState = some st0)
    (hlen : st0.setAskFor.length > maxSz) :
    ∃ s1, AskFor maxSz n h0 x s = some (s1, [Ev.ann n x]) ∧
      mapFind n s1.mapNodeAskForState =
        some { setAskFor := st0.setAskFor, node := h0 } ∧
      (∀ m, m ≠ n →
        mapFind m s1.mapNodeAskForState = mapFind m s.mapNodeAskForState) ∧
      s1.mapInvRequests = s.mapInvRequests ∧
      s1.invRequestsWorkQueue = s.invRequestsWorkQueue := by
  refine ⟨_, AskFor_eq_over maxSz n h0 x s st0 hn hlen, ?_, ?_, rfl, rfl⟩
  · rw [mapFind_mapSet_self, hn]
    rfl
  · intro m hm
    exact mapFind_mapSet_other n m _ _ hm

theorem claim10_witness :
    (mapFind 1 c10s.mapNodeAskForState = some c10st ∧
      c10st.setAskFor.length > 2) ∧
    (∃ s1, AskFor 2 1 9 13 c10s = some (s1, [Ev.ann 1 13]) ∧
      mapFind 1 s1.mapNodeAskForState =
        some { setAskFor := c10st.setAskFor, node := 9 } ∧
      (∀ m, m ≠ 1 →
        mapFind m s1.mapNodeAskForState = mapFind m c10s.mapNodeAskForState) ∧
      s1.mapInvRequests = c10s.mapInvRequests ∧
      s1.invRequestsWorkQueue = c10s.invRequestsWorkQueue) :=
  ⟨⟨rfl, by decide⟩, claim10_over_rebind 2 1 9 13 c10s c10st rfl (by decide)⟩
